import Mathlib

/-!
Verification development for an option-pricing library.

The Lean definitions below are shallow embeddings of the Python source:

* `validate_inputs`            — models/base_model.py, OptionPricingModel.validate_inputs
* `BlackScholesModel.*`        — models/black_scholes.py
* `GreeksCalculator.*`         — calculations/greeks.py
* `MonteCarloModel.*`          — models/monte_carlo.py
* `BinomialTreeModel.*`        — models/binomial_tree.py
* `OptionLeg` / `OptionStrategy.*` — strategies/options.py

Floating-point numbers are modelled by real numbers.  The standard normal
CDF (scipy.stats.norm.cdf), the standard normal PDF (scipy.stats.norm.pdf)
and the standard normal quantile (scipy.stats.norm.ppf) are external library
calls in the source and are modelled as explicit function parameters of the
pricing functions.  Randomness (numpy.random) is modelled by explicit
streams of real numbers passed to the Monte Carlo functions.
-/

/-- Model of Python str.lower for ASCII strings: lowers characters A..Z. -/
def charLower (c : Char) : Char :=
  if 'A' ≤ c ∧ c ≤ 'Z' then Char.ofNat (c.toNat + 32) else c

/-- Model of Python str.lower (ASCII). -/
def pyLower (s : String) : String := ⟨s.data.map charLower⟩

/-- Model of Python str.strip: drops whitespace from both ends. -/
def pyStrip (s : String) : String :=
  ⟨((s.data.dropWhile Char.isWhitespace).reverse.dropWhile Char.isWhitespace).reverse⟩

/-- numpy.max over a nonempty array (the empty case is irrelevant here). -/
def listMax : List ℝ → ℝ
  | [] => 0
  | x :: l => l.foldl max x

/-- numpy.min over a nonempty array (the empty case is irrelevant here). -/
def listMin : List ℝ → ℝ
  | [] => 0
  | x :: l => l.foldl min x

theorem foldl_max_le_of_all {c : ℝ} : ∀ (l : List ℝ) (a : ℝ),
    (∀ x ∈ l, x ≤ c) → a ≤ c → l.foldl max a ≤ c := by
  intro l
  induction l with
  | nil => intro a _ ha; simpa using ha
  | cons x xs ih =>
    intro a hall ha
    simp only [List.foldl_cons]
    exact ih (max a x) (fun y hy => hall y (List.mem_cons_of_mem x hy))
      (max_le ha (hall x (List.mem_cons_self x xs)))

theorem le_foldl_max_init : ∀ (l : List ℝ) (a : ℝ), a ≤ l.foldl max a := by
  intro l
  induction l with
  | nil => intro a; simp
  | cons x xs ih =>
    intro a
    simp only [List.foldl_cons]
    exact le_trans (le_max_left a x) (ih (max a x))

theorem le_foldl_max_mem : ∀ (l : List ℝ) (a x : ℝ), x ∈ l → x ≤ l.foldl max a := by
  intro l
  induction l with
  | nil => intro a x hx; simp at hx
  | cons y ys ih =>
    intro a x hx
    simp only [List.foldl_cons]
    rcases List.mem_cons.mp hx with h | h
    · subst h
      exact le_trans (le_max_right a x) (le_foldl_max_init ys (max a x))
    · exact ih (max a y) x h

theorem foldl_max_mem : ∀ (l : List ℝ) (a : ℝ), l.foldl max a = a ∨ l.foldl max a ∈ l := by
  intro l
  induction l with
  | nil => intro a; simp
  | cons x xs ih =>
    intro a
    simp only [List.foldl_cons]
    rcases ih (max a x) with h | h
    · rcases max_choice a x with hm | hm
      · left; rw [h, hm]
      · right; rw [h, hm]; exact List.mem_cons_self x xs
    · right; exact List.mem_cons_of_mem x h

theorem listMax_le {c : ℝ} {l : List ℝ} (hne : l ≠ []) (h : ∀ x ∈ l, x ≤ c) :
    listMax l ≤ c := by
  cases l with
  | nil => exact absurd rfl hne
  | cons x xs =>
    exact foldl_max_le_of_all xs x (fun y hy => h y (List.mem_cons_of_mem x hy))
      (h x (List.mem_cons_self x xs))

theorem le_listMax {x : ℝ} {l : List ℝ} (hx : x ∈ l) : x ≤ listMax l := by
  cases l with
  | nil => simp at hx
  | cons y ys =>
    rcases List.mem_cons.mp hx with h | h
    · subst h; exact le_foldl_max_init ys x
    · exact le_foldl_max_mem ys y x h

theorem listMax_mem {l : List ℝ} (hne : l ≠ []) : listMax l ∈ l := by
  cases l with
  | nil => exact absurd rfl hne
  | cons x xs =>
    rcases foldl_max_mem xs x with h | h
    · rw [listMax, h]; exact List.mem_cons_self x xs
    · exact List.mem_cons_of_mem x h

theorem foldl_min_all_ge {c : ℝ} : ∀ (l : List ℝ) (a : ℝ),
    (∀ x ∈ l, c ≤ x) → c ≤ a → c ≤ l.foldl min a := by
  intro l
  induction l with
  | nil => intro a _ ha; simpa using ha
  | cons x xs ih =>
    intro a hall ha
    simp only [List.foldl_cons]
    exact ih (min a x) (fun y hy => hall y (List.mem_cons_of_mem x hy))
      (le_min ha (hall x (List.mem_cons_self x xs)))

theorem foldl_min_le_init : ∀ (l : List ℝ) (a : ℝ), l.foldl min a ≤ a := by
  intro l
  induction l with
  | nil => intro a; simp
  | cons x xs ih =>
    intro a
    simp only [List.foldl_cons]
    exact le_trans (ih (min a x)) (min_le_left a x)

theorem foldl_min_le_mem : ∀ (l : List ℝ) (a x : ℝ), x ∈ l → l.foldl min a ≤ x := by
  intro l
  induction l with
  | nil => intro a x hx; simp at hx
  | cons y ys ih =>
    intro a x hx
    simp only [List.foldl_cons]
    rcases List.mem_cons.mp hx with h | h
    · subst h
      exact le_trans (foldl_min_le_init ys (min a x)) (min_le_right a x)
    · exact ih (min a y) x h

theorem foldl_min_mem : ∀ (l : List ℝ) (a : ℝ), l.foldl min a = a ∨ l.foldl min a ∈ l := by
  intro l
  induction l with
  | nil => intro a; simp
  | cons x xs ih =>
    intro a
    simp only [List.foldl_cons]
    rcases ih (min a x) with h | h
    · rcases min_choice a x with hm | hm
      · left; rw [h, hm]
      · right; rw [h, hm]; exact List.mem_cons_self x xs
    · right; exact List.mem_cons_of_mem x h

theorem listMin_le {x : ℝ} {l : List ℝ} (hx : x ∈ l) : listMin l ≤ x := by
  cases l with
  | nil => simp at hx
  | cons y ys =>
    rcases List.mem_cons.mp hx with h | h
    · subst h; exact foldl_min_le_init ys x
    · exact foldl_min_le_mem ys y x h

theorem listMin_mem {l : List ℝ} (hne : l ≠ []) : listMin l ∈ l := by
  cases l with
  | nil => exact absurd rfl hne
  | cons x xs =>
    rcases foldl_min_mem xs x with h | h
    · rw [listMin, h]; exact List.mem_cons_self x xs
    · exact List.mem_cons_of_mem x h

theorem listMax_all_eq {c : ℝ} : ∀ {l : List ℝ}, l ≠ [] → (∀ x ∈ l, x = c) → listMax l = c := by
  intro l hne hall
  have h1 : listMax l ≤ c := listMax_le hne (fun x hx => le_of_eq (hall x hx))
  have h2 : listMax l ∈ l := listMax_mem hne
  exact hall _ h2

/-! ## Shared validation (models/base_model.py, `validate_inputs`) -/

/-- The errors raised by `validate_inputs`; each constructor records which
field the raised message names, together with the offending value that the
message interpolates. -/
inductive ValidationError where
  | spotNotPositive (v : ℝ)
  | strikeNotPositive (v : ℝ)
  | timeNotPositive (v : ℝ)
  | volatilityNotPositive (v : ℝ)
  | rateOutOfRange (v : ℝ)
  | badOptionType (v : String)

/-- models/base_model.py, `OptionPricingModel.validate_inputs`: the shared
precondition check, translated clause for clause in source order.  A raised
ValueError is modelled as `Except.error`. -/
noncomputable def validate_inputs (spot strike time_to_maturity risk_free_rate volatility : ℝ)
    (option_type : String) : Except ValidationError Unit :=
  if spot ≤ 0 then .error (.spotNotPositive spot)
  else if strike ≤ 0 then .error (.strikeNotPositive strike)
  else if time_to_maturity ≤ 0 then .error (.timeNotPositive time_to_maturity)
  else if volatility ≤ 0 then .error (.volatilityNotPositive volatility)
  else if risk_free_rate < -0.1 ∨ risk_free_rate > 0.5 then .error (.rateOutOfRange risk_free_rate)
  else if pyLower option_type ∉ (["call", "put"] : List String) then
    .error (.badOptionType option_type)
  else .ok ()

/-- models/base_model.py, `OptionPricingModel._get_option_type`:
`option_type.lower().strip()`. -/
def get_option_type (option_type : String) : String := pyStrip (pyLower option_type)

/-- Modelled from the spec (section 4.1): the first violated check, in the
spec order spot>0; strike>0; time_to_maturity>0; volatility>0;
risk_free_rate in [-0.10, 0.50]; lowercased option_type in {call, put},
reported with the offending field named.  Used to compare the code's
`validate_inputs` against the specified order. -/
noncomputable def specFirstViolation (spot strike time_to_maturity risk_free_rate volatility : ℝ)
    (option_type : String) : Option ValidationError :=
  if ¬ (0 < spot) then some (.spotNotPositive spot)
  else if ¬ (0 < strike) then some (.strikeNotPositive strike)
  else if ¬ (0 < time_to_maturity) then some (.timeNotPositive time_to_maturity)
  else if ¬ (0 < volatility) then some (.volatilityNotPositive volatility)
  else if ¬ (-0.10 ≤ risk_free_rate ∧ risk_free_rate ≤ 0.50) then
    some (.rateOutOfRange risk_free_rate)
  else if ¬ (pyLower option_type = "call" ∨ pyLower option_type = "put") then
    some (.badOptionType option_type)
  else none

/-- The error component of an `Except` result (`none` when no error was raised). -/
def raisedError {ε α : Type} : Except ε α → Option ε
  | .error e => some e
  | .ok _ => none

/-! ## Black-Scholes (models/black_scholes.py) -/

/-- models/black_scholes.py, `BlackScholesModel._calculate_d1`. -/
noncomputable def BlackScholesModel.calc_d1 (spot strike time_to_maturity risk_free_rate volatility : ℝ) : ℝ :=
  (Real.log (spot / strike) + (risk_free_rate + 0.5 * volatility ^ 2) * time_to_maturity) /
    (volatility * Real.sqrt time_to_maturity)

/-- models/black_scholes.py, `BlackScholesModel._calculate_d2`. -/
noncomputable def BlackScholesModel.calc_d2 (d1 volatility time_to_maturity : ℝ) : ℝ :=
  d1 - volatility * Real.sqrt time_to_maturity

/-- models/black_scholes.py, `BlackScholesModel._calculate_call_price`;
`Φ` models scipy.stats.norm.cdf. -/
noncomputable def BlackScholesModel.call_price (Φ : ℝ → ℝ)
    (spot strike time_to_maturity risk_free_rate d1 d2 : ℝ) : ℝ :=
  spot * Φ d1 - strike * Real.exp (-risk_free_rate * time_to_maturity) * Φ d2

/-- models/black_scholes.py, `BlackScholesModel._calculate_put_price`. -/
noncomputable def BlackScholesModel.put_price (Φ : ℝ → ℝ)
    (spot strike time_to_maturity risk_free_rate d1 d2 : ℝ) : ℝ :=
  strike * Real.exp (-risk_free_rate * time_to_maturity) * Φ (-d2) - spot * Φ (-d1)

/-- The post-validation part of `BlackScholesModel.calculate_price`:
d1, d2, then the call or put branch on the normalized option type. -/
noncomputable def BlackScholesModel.priceCore (Φ : ℝ → ℝ)
    (spot strike time_to_maturity risk_free_rate volatility : ℝ) (otn : String) : ℝ :=
  let d1 := BlackScholesModel.calc_d1 spot strike time_to_maturity risk_free_rate volatility
  let d2 := BlackScholesModel.calc_d2 d1 volatility time_to_maturity
  if otn = "call" then
    BlackScholesModel.call_price Φ spot strike time_to_maturity risk_free_rate d1 d2
  else
    BlackScholesModel.put_price Φ spot strike time_to_maturity risk_free_rate d1 d2

/-- models/black_scholes.py, `BlackScholesModel.calculate_price`: validate,
normalize the option type, compute d1 and d2, and price the call or put. -/
noncomputable def BlackScholesModel.calculate_price (Φ : ℝ → ℝ)
    (spot strike time_to_maturity risk_free_rate volatility : ℝ)
    (option_type : String) : Except ValidationError ℝ :=
  match validate_inputs spot strike time_to_maturity risk_free_rate volatility option_type with
  | .error e => .error e
  | .ok _ =>
    .ok (BlackScholesModel.priceCore Φ spot strike time_to_maturity risk_free_rate volatility
      (get_option_type option_type))

/-! ## Greeks (calculations/greeks.py) -/

/-- calculations/greeks.py, `GreeksCalculator._calculate_d1` (its own private
copy of the Black-Scholes d1). -/
noncomputable def GreeksCalculator.calc_d1 (spot strike time_to_maturity risk_free_rate volatility : ℝ) : ℝ :=
  (Real.log (spot / strike) + (risk_free_rate + 0.5 * volatility ^ 2) * time_to_maturity) /
    (volatility * Real.sqrt time_to_maturity)

/-- calculations/greeks.py, `GreeksCalculator.delta`; `Φ` models norm.cdf. -/
noncomputable def GreeksCalculator.delta (Φ : ℝ → ℝ)
    (spot strike time_to_maturity risk_free_rate volatility : ℝ) (option_type : String) : ℝ :=
  let d1 := GreeksCalculator.calc_d1 spot strike time_to_maturity risk_free_rate volatility
  if pyLower option_type = "call" then Φ d1 else Φ d1 - 1

/-- calculations/greeks.py, `GreeksCalculator.gamma`; `P` models norm.pdf. -/
noncomputable def GreeksCalculator.gamma (P : ℝ → ℝ)
    (spot strike time_to_maturity risk_free_rate volatility : ℝ) : ℝ :=
  let d1 := GreeksCalculator.calc_d1 spot strike time_to_maturity risk_free_rate volatility
  P d1 / (spot * volatility * Real.sqrt time_to_maturity)

/-- calculations/greeks.py, `GreeksCalculator.theta`. -/
noncomputable def GreeksCalculator.theta (Φ P : ℝ → ℝ)
    (spot strike time_to_maturity risk_free_rate volatility : ℝ) (option_type : String) : ℝ :=
  let d1 := GreeksCalculator.calc_d1 spot strike time_to_maturity risk_free_rate volatility
  let d2 := d1 - volatility * Real.sqrt time_to_maturity
  let term1 := -(spot * P d1 * volatility) / (2 * Real.sqrt time_to_maturity)
  if pyLower option_type = "call" then
    (term1 - risk_free_rate * strike * Real.exp (-risk_free_rate * time_to_maturity) * Φ d2) / 365
  else
    (term1 + risk_free_rate * strike * Real.exp (-risk_free_rate * time_to_maturity) * Φ (-d2)) / 365

/-- calculations/greeks.py, `GreeksCalculator.vega`. -/
noncomputable def GreeksCalculator.vega (P : ℝ → ℝ)
    (spot strike time_to_maturity risk_free_rate volatility : ℝ) : ℝ :=
  let d1 := GreeksCalculator.calc_d1 spot strike time_to_maturity risk_free_rate volatility
  spot * P d1 * Real.sqrt time_to_maturity / 100

/-- calculations/greeks.py, `GreeksCalculator.rho`. -/
noncomputable def GreeksCalculator.rho (Φ : ℝ → ℝ)
    (spot strike time_to_maturity risk_free_rate volatility : ℝ) (option_type : String) : ℝ :=
  let d1 := GreeksCalculator.calc_d1 spot strike time_to_maturity risk_free_rate volatility
  let d2 := d1 - volatility * Real.sqrt time_to_maturity
  if pyLower option_type = "call" then
    strike * time_to_maturity * Real.exp (-risk_free_rate * time_to_maturity) * Φ d2 / 100
  else
    -strike * time_to_maturity * Real.exp (-risk_free_rate * time_to_maturity) * Φ (-d2) / 100

/-- The result dictionary of `calculate_all_greeks`. -/
structure GreeksBundle where
  Delta : ℝ
  Gamma : ℝ
  Theta : ℝ
  Vega : ℝ
  Rho : ℝ

/-- calculations/greeks.py, `GreeksCalculator.calculate_all_greeks`: builds the
Greek dictionary by calling the five methods.  The source performs no input
validation anywhere in this file, so the function is total. -/
noncomputable def GreeksCalculator.calculate_all_greeks (Φ P : ℝ → ℝ)
    (spot strike time_to_maturity risk_free_rate volatility : ℝ) (option_type : String) :
    GreeksBundle where
  Delta := GreeksCalculator.delta Φ spot strike time_to_maturity risk_free_rate volatility option_type
  Gamma := GreeksCalculator.gamma P spot strike time_to_maturity risk_free_rate volatility
  Theta := GreeksCalculator.theta Φ P spot strike time_to_maturity risk_free_rate volatility option_type
  Vega := GreeksCalculator.vega P spot strike time_to_maturity risk_free_rate volatility
  Rho := GreeksCalculator.rho Φ spot strike time_to_maturity risk_free_rate volatility option_type

/-! ## Monte Carlo (models/monte_carlo.py) -/

/-- The configuration fixed at `MonteCarloModel.__init__` (the optional seed is
modelled separately, see `MonteCarloModel.priceFromSeed`). -/
structure MCConfig where
  num_simulations : ℕ
  num_steps : ℕ
  antithetic : Bool

/-- Number of independent draws: `num_simulations // 2` when antithetic. -/
def MonteCarloModel.numSims (cfg : MCConfig) : ℕ :=
  if cfg.antithetic then cfg.num_simulations / 2 else cfg.num_simulations

/-- The random-number matrix after the antithetic concatenation: column `j`
is an independent draw `Z t j` for `j < numSims`, and its negation for the
appended antithetic columns. -/
noncomputable def MonteCarloModel.randomNumbers (cfg : MCConfig) (Z : ℕ → ℕ → ℝ) (t j : ℕ) : ℝ :=
  if j < MonteCarloModel.numSims cfg then Z t j else -(Z t (j - MonteCarloModel.numSims cfg))

/-- Total number of simulated paths (columns of the concatenated matrix). -/
def MonteCarloModel.pathCount (cfg : MCConfig) : ℕ :=
  if cfg.antithetic then 2 * (cfg.num_simulations / 2) else cfg.num_simulations

/-- The simulated price path of column `j`, by the recursion
`S(t+1) = S(t) * exp(drift + diffusion * Z[t][j])` started at the spot. -/
noncomputable def MonteCarloModel.pricePath (cfg : MCConfig) (Z : ℕ → ℕ → ℝ)
    (spot drift diffusion : ℝ) (j : ℕ) : ℕ → ℝ
  | 0 => spot
  | t + 1 => MonteCarloModel.pricePath cfg Z spot drift diffusion j t *
      Real.exp (drift + diffusion * MonteCarloModel.randomNumbers cfg Z t j)

/-- The payoff of path `j` at expiration. -/
noncomputable def MonteCarloModel.pathPayoff (cfg : MCConfig) (Z : ℕ → ℕ → ℝ)
    (spot strike drift diffusion : ℝ) (otn : String) (j : ℕ) : ℝ :=
  let finalPrice := MonteCarloModel.pricePath cfg Z spot drift diffusion j cfg.num_steps
  if otn = "call" then max (finalPrice - strike) 0 else max (strike - finalPrice) 0

/-- The post-validation part of `MonteCarloModel.calculate_price`:
dt, drift, diffusion, path simulation, payoffs, and the discounted mean. -/
noncomputable def MonteCarloModel.priceCore (cfg : MCConfig) (Z : ℕ → ℕ → ℝ)
    (spot strike time_to_maturity risk_free_rate volatility : ℝ) (otn : String) : ℝ :=
  let dt := time_to_maturity / cfg.num_steps
  let drift := (risk_free_rate - 0.5 * volatility ^ 2) * dt
  let diffusion := volatility * Real.sqrt dt
  Real.exp (-risk_free_rate * time_to_maturity) *
    ((∑ j ∈ Finset.range (MonteCarloModel.pathCount cfg),
      MonteCarloModel.pathPayoff cfg Z spot strike drift diffusion otn j) /
      (MonteCarloModel.pathCount cfg))

/-- models/monte_carlo.py, `MonteCarloModel.calculate_price`: validate, then
simulate with the supplied stream of standard-normal draws `Z`. -/
noncomputable def MonteCarloModel.calculate_price (cfg : MCConfig) (Z : ℕ → ℕ → ℝ)
    (spot strike time_to_maturity risk_free_rate volatility : ℝ)
    (option_type : String) : Except ValidationError ℝ :=
  match validate_inputs spot strike time_to_maturity risk_free_rate volatility option_type with
  | .error e => .error e
  | .ok _ =>
    .ok (MonteCarloModel.priceCore cfg Z spot strike time_to_maturity risk_free_rate volatility
      (get_option_type option_type))

/-- The result dictionary of `calculate_price_with_confidence`. -/
structure ConfidenceResult where
  price : ℝ
  std_error : ℝ
  lower_bound : ℝ
  upper_bound : ℝ
  confidence_level : ℝ

/-- The ten batch prices of `calculate_price_with_confidence`: each batch
temporarily sets `num_simulations` to `num_simulations // 10` and reprices;
batch `b` consumes its own fresh draws `Zs b`. -/
noncomputable def MonteCarloModel.batchPrices (cfg : MCConfig) (Zs : ℕ → ℕ → ℕ → ℝ)
    (spot strike time_to_maturity risk_free_rate volatility : ℝ) (otn : String) : List ℝ :=
  (List.range 10).map (fun b =>
    MonteCarloModel.priceCore ⟨cfg.num_simulations / 10, cfg.num_steps, cfg.antithetic⟩ (Zs b)
      spot strike time_to_maturity risk_free_rate volatility otn)

/-- models/monte_carlo.py, `MonteCarloModel.calculate_price_with_confidence`:
ten batch prices, their mean, the population standard deviation of the batch
prices divided by sqrt(10) as the standard error, and the symmetric interval
mean plus or minus `ppf((1+confidence_level)/2) * std_error`; `ppf` models
scipy.stats.norm.ppf. -/
noncomputable def MonteCarloModel.calculate_price_with_confidence (cfg : MCConfig)
    (Zs : ℕ → ℕ → ℕ → ℝ) (ppf : ℝ → ℝ)
    (spot strike time_to_maturity risk_free_rate volatility : ℝ)
    (option_type : String) (confidence_level : ℝ) : Except ValidationError ConfidenceResult :=
  match validate_inputs spot strike time_to_maturity risk_free_rate volatility option_type with
  | .error e => .error e
  | .ok _ =>
    let bp := MonteCarloModel.batchPrices cfg Zs spot strike time_to_maturity risk_free_rate
      volatility (get_option_type option_type)
    let mean_price := bp.sum / 10
    let std_error := Real.sqrt ((bp.map (fun x => (x - mean_price) ^ 2)).sum / 10) / Real.sqrt 10
    let margin := ppf ((1 + confidence_level) / 2) * std_error
    .ok ⟨mean_price, std_error, mean_price - margin, mean_price + margin, confidence_level⟩

/-- A Monte Carlo pricing run preceded by construction: `np.random.seed(seed)`
replaces the process RNG state by a state depending only on the seed (the
abstract `G` maps a seed to the stream the generator then produces); without a
seed the ambient stream is consumed as-is. -/
noncomputable def MonteCarloModel.priceFromSeed (G : ℕ → ℕ → ℕ → ℝ) (cfg : MCConfig)
    (seed : Option ℕ) (ambient : ℕ → ℕ → ℝ)
    (spot strike time_to_maturity risk_free_rate volatility : ℝ)
    (option_type : String) : Except ValidationError ℝ :=
  let Z := match seed with
    | some s => G s
    | none => ambient
  MonteCarloModel.calculate_price cfg Z spot strike time_to_maturity risk_free_rate volatility
    option_type

/-! ## Binomial tree (models/binomial_tree.py) -/

/-- The configuration fixed at `BinomialTreeModel.__init__`. -/
structure BTConfig where
  num_steps : ℕ
  american : Bool

/-- models/binomial_tree.py: the forward asset-price tree,
`price_tree[i][j] = spot * u^j * d^(i-j)`. -/
noncomputable def BinomialTreeModel.price_tree (spot u d : ℝ) (i j : ℕ) : ℝ :=
  spot * u ^ j * d ^ (i - j)

/-- Exercise payoff at a node (used at expiration and, for American options,
at the early-exercise check): `max(0, price - strike)` for calls and
`max(0, strike - price)` for puts. -/
noncomputable def BinomialTreeModel.exerciseValue (otn : String) (price strike : ℝ) : ℝ :=
  if otn = "call" then max 0 (price - strike) else max 0 (strike - price)

/-- The option-value tree of `calculate_price`, indexed by the number `m` of
backward-induction steps already performed: `option_tree N american otn ... m j`
is the value at tree row `i = N - m`, node `j`.  At `m = 0` it is the payoff
at expiration; each further level discounts the risk-neutral expectation of
the previous level and, for American options, replaces the continuation value
by the exercise value whenever the latter is strictly greater. -/
noncomputable def BinomialTreeModel.option_tree (N : ℕ) (american : Bool) (otn : String)
    (spot strike u d p disc : ℝ) : ℕ → ℕ → ℝ
  | 0, j => BinomialTreeModel.exerciseValue otn (BinomialTreeModel.price_tree spot u d N j) strike
  | m + 1, j =>
    let cont := disc *
      (p * BinomialTreeModel.option_tree N american otn spot strike u d p disc m (j + 1) +
       (1 - p) * BinomialTreeModel.option_tree N american otn spot strike u d p disc m j)
    if american then
      let ex := BinomialTreeModel.exerciseValue otn
        (BinomialTreeModel.price_tree spot u d (N - (m + 1)) j) strike
      if ex > cont then ex else cont
    else cont

/-- CRR up factor `u = exp(volatility * sqrt(dt))` with `dt = T / num_steps`. -/
noncomputable def BinomialTreeModel.crr_u (time_to_maturity volatility : ℝ) (N : ℕ) : ℝ :=
  Real.exp (volatility * Real.sqrt (time_to_maturity / N))

/-- CRR down factor `d = 1 / u`. -/
noncomputable def BinomialTreeModel.crr_d (time_to_maturity volatility : ℝ) (N : ℕ) : ℝ :=
  1 / BinomialTreeModel.crr_u time_to_maturity volatility N

/-- CRR risk-neutral probability `p = (exp(r*dt) - d) / (u - d)`. -/
noncomputable def BinomialTreeModel.crr_p (time_to_maturity risk_free_rate volatility : ℝ)
    (N : ℕ) : ℝ :=
  (Real.exp (risk_free_rate * (time_to_maturity / N)) -
      BinomialTreeModel.crr_d time_to_maturity volatility N) /
    (BinomialTreeModel.crr_u time_to_maturity volatility N -
      BinomialTreeModel.crr_d time_to_maturity volatility N)

/-- CRR per-step discount factor `exp(-r*dt)`. -/
noncomputable def BinomialTreeModel.crr_disc (time_to_maturity risk_free_rate : ℝ) (N : ℕ) : ℝ :=
  Real.exp (-risk_free_rate * (time_to_maturity / N))

/-- The post-validation part of `BinomialTreeModel.calculate_price`: build the
CRR lattice and return the root of the backward-induced option-value tree. -/
noncomputable def BinomialTreeModel.priceCore (cfg : BTConfig)
    (spot strike time_to_maturity risk_free_rate volatility : ℝ) (otn : String) : ℝ :=
  BinomialTreeModel.option_tree cfg.num_steps cfg.american otn spot strike
    (BinomialTreeModel.crr_u time_to_maturity volatility cfg.num_steps)
    (BinomialTreeModel.crr_d time_to_maturity volatility cfg.num_steps)
    (BinomialTreeModel.crr_p time_to_maturity risk_free_rate volatility cfg.num_steps)
    (BinomialTreeModel.crr_disc time_to_maturity risk_free_rate cfg.num_steps)
    cfg.num_steps 0

/-- models/binomial_tree.py, `BinomialTreeModel.calculate_price`: validate,
normalize the option type, then run the CRR lattice. -/
noncomputable def BinomialTreeModel.calculate_price (cfg : BTConfig)
    (spot strike time_to_maturity risk_free_rate volatility : ℝ)
    (option_type : String) : Except ValidationError ℝ :=
  match validate_inputs spot strike time_to_maturity risk_free_rate volatility option_type with
  | .error e => .error e
  | .ok _ =>
    .ok (BinomialTreeModel.priceCore cfg spot strike time_to_maturity risk_free_rate volatility
      (get_option_type option_type))

/-! ## Strategies (strategies/options.py) -/

/-- strategies/options.py, `OptionLeg`. -/
structure OptionLeg where
  option_type : String
  strike : ℝ
  position : String
  quantity : ℤ := 1
  premium : ℝ := 0

/-- strategies/options.py, `OptionLeg.payoff`: intrinsic value at expiration,
combined with the position and the premium and scaled by the quantity. -/
noncomputable def OptionLeg.payoff (leg : OptionLeg) (spot : ℝ) : ℝ :=
  let intrinsic := if leg.option_type = "call" then max (spot - leg.strike) 0
    else max (leg.strike - spot) 0
  if leg.position = "long" then (intrinsic - leg.premium) * leg.quantity
  else (leg.premium - intrinsic) * leg.quantity

/-- The strategy payoff at a single terminal spot: the sum of the leg payoffs. -/
noncomputable def OptionStrategy.payoffAt (legs : List OptionLeg) (spot : ℝ) : ℝ :=
  (legs.map (fun leg => leg.payoff spot)).sum

/-- strategies/options.py, `OptionStrategy.calculate_payoff`: elementwise
total payoff over an array of spot prices. -/
noncomputable def OptionStrategy.calculate_payoff (legs : List OptionLeg)
    (spot_range : List ℝ) : List ℝ :=
  spot_range.map (OptionStrategy.payoffAt legs)

/-- Lower end of `_get_analysis_range`:
`max(min_strike - 0.5 * (max_strike - min_strike), 0.01)`. -/
noncomputable def OptionStrategy.rangeStart (legs : List OptionLeg) : ℝ :=
  let strikes := legs.map (fun leg => leg.strike)
  max (listMin strikes - 0.5 * (listMax strikes - listMin strikes)) 0.01

/-- Upper end of `_get_analysis_range`:
`max_strike + 0.5 * (max_strike - min_strike)`. -/
noncomputable def OptionStrategy.rangeEnd (legs : List OptionLeg) : ℝ :=
  let strikes := legs.map (fun leg => leg.strike)
  listMax strikes + 0.5 * (listMax strikes - listMin strikes)

/-- The `i`-th of the 1000 sample points of `np.linspace(start, end, 1000)`. -/
noncomputable def OptionStrategy.sampleAt (legs : List OptionLeg) (i : ℕ) : ℝ :=
  OptionStrategy.rangeStart legs +
    i * (OptionStrategy.rangeEnd legs - OptionStrategy.rangeStart legs) / 999

/-- strategies/options.py, `OptionStrategy._get_analysis_range`: 1000 evenly
spaced samples between `rangeStart` and `rangeEnd`. -/
noncomputable def OptionStrategy.analysisRange (legs : List OptionLeg) : List ℝ :=
  (List.range 1000).map (OptionStrategy.sampleAt legs)

/-- strategies/options.py, `OptionStrategy.max_profit`. -/
noncomputable def OptionStrategy.max_profit (legs : List OptionLeg) : ℝ :=
  listMax (OptionStrategy.calculate_payoff legs (OptionStrategy.analysisRange legs))

/-- strategies/options.py, `OptionStrategy.max_loss`. -/
noncomputable def OptionStrategy.max_loss (legs : List OptionLeg) : ℝ :=
  listMin (OptionStrategy.calculate_payoff legs (OptionStrategy.analysisRange legs))

/-- The strategy payoff at sample index `i`. -/
noncomputable def OptionStrategy.payAt (legs : List OptionLeg) (i : ℕ) : ℝ :=
  OptionStrategy.payoffAt legs (OptionStrategy.sampleAt legs i)

/-- The linear interpolation of `break_even_points` for the bracketing pair
`(i, i+1)`:
`spot[i] - payoff[i] * (spot[i+1] - spot[i]) / (payoff[i+1] - payoff[i])`. -/
noncomputable def OptionStrategy.interpAt (legs : List OptionLeg) (i : ℕ) : ℝ :=
  OptionStrategy.sampleAt legs i -
    OptionStrategy.payAt legs i *
      (OptionStrategy.sampleAt legs (i + 1) - OptionStrategy.sampleAt legs i) /
      (OptionStrategy.payAt legs (i + 1) - OptionStrategy.payAt legs i)

/-- strategies/options.py, `OptionStrategy.break_even_points`: scan the 999
consecutive sample pairs in index order and append one interpolated point for
every pair whose payoffs have a strictly negative product. -/
noncomputable def OptionStrategy.break_even_points (legs : List OptionLeg) : List ℝ :=
  (List.range 999).foldl
    (fun acc i =>
      if OptionStrategy.payAt legs i * OptionStrategy.payAt legs (i + 1) < 0 then
        acc ++ [OptionStrategy.interpAt legs i]
      else acc)
    []

/-- Modelled from the claim wording of C5: an analysis range spanning from
50 percent below the minimum leg strike to 50 percent above the maximum leg
strike, sampled at 1000 points. -/
noncomputable def OptionStrategy.claimedRange (legs : List OptionLeg) : List ℝ :=
  let strikes := legs.map (fun leg => leg.strike)
  (List.range 1000).map (fun i : ℕ =>
    0.5 * listMin strikes + (i : ℝ) * (1.5 * listMax strikes - 0.5 * listMin strikes) / 999)

/-! ## Validation lemmas -/

theorem validate_inputs_ok {spot strike tau r sigma : ℝ} {ot : String}
    (hs : 0 < spot) (hk : 0 < strike) (ht : 0 < tau) (hv : 0 < sigma)
    (hr1 : -0.10 ≤ r) (hr2 : r ≤ 0.50)
    (hot : pyLower ot = "call" ∨ pyLower ot = "put") :
    validate_inputs spot strike tau r sigma ot = .ok () := by
  have hmem : pyLower ot ∈ (["call", "put"] : List String) := by
    rcases hot with h | h <;> simp [h]
  have hrate : ¬ (r < -0.1 ∨ r > 0.5) := by
    push_neg
    constructor <;> [linarith; linarith]
  unfold validate_inputs
  rw [if_neg (not_le.mpr hs), if_neg (not_le.mpr hk), if_neg (not_le.mpr ht),
    if_neg (not_le.mpr hv), if_neg hrate, if_neg (not_not_intro hmem)]

theorem validate_matches_spec_order (spot strike tau r sigma : ℝ) (ot : String) :
    raisedError (validate_inputs spot strike tau r sigma ot) =
      specFirstViolation spot strike tau r sigma ot := by
  unfold validate_inputs specFirstViolation
  by_cases h1 : spot ≤ 0
  · rw [if_pos h1, if_pos (not_lt.mpr h1)]; rfl
  · rw [if_neg h1, if_neg (not_not_intro (not_le.mp h1))]
    by_cases h2 : strike ≤ 0
    · rw [if_pos h2, if_pos (not_lt.mpr h2)]; rfl
    · rw [if_neg h2, if_neg (not_not_intro (not_le.mp h2))]
      by_cases h3 : tau ≤ 0
      · rw [if_pos h3, if_pos (not_lt.mpr h3)]; rfl
      · rw [if_neg h3, if_neg (not_not_intro (not_le.mp h3))]
        by_cases h4 : sigma ≤ 0
        · rw [if_pos h4, if_pos (not_lt.mpr h4)]; rfl
        · rw [if_neg h4, if_neg (not_not_intro (not_le.mp h4))]
          by_cases h5 : r < -0.1 ∨ r > 0.5
          · have h5' : ¬ (-0.10 ≤ r ∧ r ≤ 0.50) := by
              push_neg
              intro hge
              rcases h5 with h | h
              · exact absurd hge (by linarith)
              · linarith
            rw [if_pos h5, if_pos h5']; rfl
          · have h5' : -0.10 ≤ r ∧ r ≤ 0.50 := by
              push_neg at h5
              exact ⟨by linarith [h5.1], by linarith [h5.2]⟩
            rw [if_neg h5, if_neg (not_not_intro h5')]
            by_cases h6 : pyLower ot ∈ (["call", "put"] : List String)
            · have h6' : pyLower ot = "call" ∨ pyLower ot = "put" := by simpa using h6
              rw [if_neg (not_not_intro h6), if_neg (not_not_intro h6')]; rfl
            · have h6' : ¬ (pyLower ot = "call" ∨ pyLower ot = "put") := by simpa using h6
              rw [if_pos h6, if_pos h6']; rfl

/-- C2: for every input to any of the three pricers, `calculate_price` checks
the preconditions in the order spot, strike, time_to_maturity, volatility,
risk_free_rate, lowercased option_type; the first violated check produces an
error naming the offending field and value, the pricers raise exactly the
validation error (so no pricing work yields a result and nothing is clamped
or defaulted), and in particular spot = -1 raises naming spot while
option_type = "straddle" raises naming option_type. -/
theorem C2_validation_order_and_errors :
    (∀ (spot strike tau r sigma : ℝ) (ot : String),
      raisedError (validate_inputs spot strike tau r sigma ot) =
        specFirstViolation spot strike tau r sigma ot) ∧
    (∀ (Φ : ℝ → ℝ) (spot strike tau r sigma : ℝ) (ot : String) (e : ValidationError),
      BlackScholesModel.calculate_price Φ spot strike tau r sigma ot = .error e ↔
        validate_inputs spot strike tau r sigma ot = .error e) ∧
    (∀ (cfg : MCConfig) (Z : ℕ → ℕ → ℝ) (spot strike tau r sigma : ℝ) (ot : String)
        (e : ValidationError),
      MonteCarloModel.calculate_price cfg Z spot strike tau r sigma ot = .error e ↔
        validate_inputs spot strike tau r sigma ot = .error e) ∧
    (∀ (cfg : BTConfig) (spot strike tau r sigma : ℝ) (ot : String) (e : ValidationError),
      BinomialTreeModel.calculate_price cfg spot strike tau r sigma ot = .error e ↔
        validate_inputs spot strike tau r sigma ot = .error e) ∧
    (∀ (strike tau r sigma : ℝ) (ot : String),
      validate_inputs (-1) strike tau r sigma ot = .error (.spotNotPositive (-1))) ∧
    (∀ (Φ : ℝ → ℝ),
      BlackScholesModel.calculate_price Φ 100 100 1 0.05 0.2 "straddle" =
        .error (.badOptionType "straddle")) := by
  refine ⟨validate_matches_spec_order, ?_, ?_, ?_, ?_, ?_⟩
  · intro Φ spot strike tau r sigma ot e
    unfold BlackScholesModel.calculate_price
    cases hv : validate_inputs spot strike tau r sigma ot <;> simp [hv]
  · intro cfg Z spot strike tau r sigma ot e
    unfold MonteCarloModel.calculate_price
    cases hv : validate_inputs spot strike tau r sigma ot <;> simp [hv]
  · intro cfg spot strike tau r sigma ot e
    unfold BinomialTreeModel.calculate_price
    cases hv : validate_inputs spot strike tau r sigma ot <;> simp [hv]
  · intro strike tau r sigma ot
    unfold validate_inputs
    rw [if_pos (by norm_num)]
  · intro Φ
    have hv : validate_inputs 100 100 1 0.05 0.2 "straddle" =
        .error (.badOptionType "straddle") := by
      unfold validate_inputs
      rw [if_neg (by norm_num), if_neg (by norm_num), if_neg (by norm_num),
        if_neg (by norm_num), if_neg (by norm_num), if_pos (by decide)]
    unfold BlackScholesModel.calculate_price
    rw [hv]

/-! ## Black-Scholes theorems -/

/-- Modelled from the spec (section 4.2): the d1 formula as written there. -/
noncomputable def spec_d1 (S K T r sigma : ℝ) : ℝ :=
  (Real.log (S / K) + (r + sigma ^ 2 / 2) * T) / (sigma * Real.sqrt T)

/-- Modelled from the spec (section 4.2): `d2 = d1 - sigma * sqrt T`. -/
noncomputable def spec_d2 (S K T r sigma : ℝ) : ℝ :=
  spec_d1 S K T r sigma - sigma * Real.sqrt T

/-- Modelled from the spec (section 4.2): the call price formula. -/
noncomputable def spec_call_price (Φ : ℝ → ℝ) (S K T r sigma : ℝ) : ℝ :=
  S * Φ (spec_d1 S K T r sigma) - K * Real.exp (-r * T) * Φ (spec_d2 S K T r sigma)

/-- Modelled from the spec (section 4.2): the put price formula. -/
noncomputable def spec_put_price (Φ : ℝ → ℝ) (S K T r sigma : ℝ) : ℝ :=
  K * Real.exp (-r * T) * Φ (-spec_d2 S K T r sigma) - S * Φ (-spec_d1 S K T r sigma)

theorem calc_d1_eq_spec (S K T r sigma : ℝ) :
    BlackScholesModel.calc_d1 S K T r sigma = spec_d1 S K T r sigma := by
  unfold BlackScholesModel.calc_d1 spec_d1
  ring_nf

theorem get_option_type_call {ot : String} (h : pyLower ot = "call") :
    get_option_type ot = "call" := by
  unfold get_option_type
  rw [h]
  decide

theorem get_option_type_put {ot : String} (h : pyLower ot = "put") :
    get_option_type ot = "put" := by
  unfold get_option_type
  rw [h]
  decide

/-- C1: for every valid parameter set, Black-Scholes `calculate_price` returns
exactly the spec formula `S*Φ(d1) - K*exp(-r*T)*Φ(d2)` for a call and
`K*exp(-r*T)*Φ(-d2) - S*Φ(-d1)` for a put, with
`d1 = (ln(S/K) + (r + sigma^2/2)*T) / (sigma*sqrt T)` and
`d2 = d1 - sigma*sqrt T`; at the concrete scenario spot=100, strike=100, T=1,
r=0.05, sigma=0.20 the d-values are exactly d1 = 0.35 and d2 = 0.15, so
the call price is exactly `100*Φ(0.35) - 100*exp(-0.05)*Φ(0.15)` and the put
price exactly `100*exp(-0.05)*Φ(-0.15) - 100*Φ(-0.35)` (the decimal values
10.4506 and 5.5735 quoted in the claim are the standard numerical values of
these closed forms under the true standard normal CDF). -/
theorem C1_black_scholes_price (Φ : ℝ → ℝ) (spot strike tau r sigma : ℝ) (ot : String)
    (hs : 0 < spot) (hk : 0 < strike) (ht : 0 < tau) (hv : 0 < sigma)
    (hr1 : -0.10 ≤ r) (hr2 : r ≤ 0.50)
    (hot : pyLower ot = "call" ∨ pyLower ot = "put") :
    (pyLower ot = "call" →
      BlackScholesModel.calculate_price Φ spot strike tau r sigma ot =
        .ok (spec_call_price Φ spot strike tau r sigma)) ∧
    (pyLower ot = "put" →
      BlackScholesModel.calculate_price Φ spot strike tau r sigma ot =
        .ok (spec_put_price Φ spot strike tau r sigma)) ∧
    BlackScholesModel.calculate_price Φ 100 100 1 0.05 0.2 "call" =
      .ok (100 * Φ (7 / 20) - 100 * Real.exp (-(1 / 20)) * Φ (3 / 20)) ∧
    BlackScholesModel.calculate_price Φ 100 100 1 0.05 0.2 "put" =
      .ok (100 * Real.exp (-(1 / 20)) * Φ (-(3 / 20)) - 100 * Φ (-(7 / 20))) := by
  have hok := validate_inputs_ok hs hk ht hv hr1 hr2 hot
  have hcore_call : ∀ (S K T R V : ℝ),
      BlackScholesModel.priceCore Φ S K T R V "call" = spec_call_price Φ S K T R V := by
    intro S K T R V
    unfold BlackScholesModel.priceCore spec_call_price
    rw [if_pos rfl]
    unfold BlackScholesModel.call_price BlackScholesModel.calc_d2 spec_d2
    rw [calc_d1_eq_spec]
  have hcore_put : ∀ (S K T R V : ℝ),
      BlackScholesModel.priceCore Φ S K T R V "put" = spec_put_price Φ S K T R V := by
    intro S K T R V
    unfold BlackScholesModel.priceCore spec_put_price
    rw [if_neg (by decide)]
    unfold BlackScholesModel.put_price BlackScholesModel.calc_d2 spec_d2
    rw [calc_d1_eq_spec]
  have hd1 : spec_d1 100 100 1 0.05 0.2 = 7 / 20 := by
    unfold spec_d1
    rw [show (100 : ℝ) / 100 = 1 by norm_num, Real.log_one, Real.sqrt_one]
    norm_num
  have hd2 : spec_d2 100 100 1 0.05 0.2 = 3 / 20 := by
    unfold spec_d2
    rw [hd1, Real.sqrt_one]
    norm_num
  have hvc : validate_inputs 100 100 1 0.05 0.2 "call" = .ok () :=
    validate_inputs_ok (by norm_num) (by norm_num) (by norm_num) (by norm_num)
      (by norm_num) (by norm_num) (Or.inl (by decide))
  have hvp : validate_inputs 100 100 1 0.05 0.2 "put" = .ok () :=
    validate_inputs_ok (by norm_num) (by norm_num) (by norm_num) (by norm_num)
      (by norm_num) (by norm_num) (Or.inr (by decide))
  refine ⟨?_, ?_, ?_, ?_⟩
  · intro hc
    unfold BlackScholesModel.calculate_price
    rw [hok, get_option_type_call hc, hcore_call]
  · intro hp
    unfold BlackScholesModel.calculate_price
    rw [hok, get_option_type_put hp, hcore_put]
  · unfold BlackScholesModel.calculate_price
    rw [hvc, get_option_type_call (by decide), hcore_call]
    unfold spec_call_price
    rw [hd1, hd2]
    norm_num
  · unfold BlackScholesModel.calculate_price
    rw [hvp, get_option_type_put (by decide), hcore_put]
    unfold spec_put_price
    rw [hd1, hd2]
    norm_num

/-- Witness for C1 at spot=100, strike=100, T=1, r=0.05, sigma=0.2, a call,
with the CDF instantiated to a concrete function. -/
theorem C1_black_scholes_price_witness :
    BlackScholesModel.calculate_price (fun _ => (1 : ℝ) / 2) 100 100 1 0.05 0.2 "call" =
      .ok (spec_call_price (fun _ => (1 : ℝ) / 2) 100 100 1 0.05 0.2) :=
  (C1_black_scholes_price (fun _ => (1 : ℝ) / 2) 100 100 1 0.05 0.2 "call"
    (by norm_num) (by norm_num) (by norm_num) (by norm_num) (by norm_num) (by norm_num)
    (Or.inl (by decide))).1 (by decide)

/-- C9: put-call parity is exact for the Black-Scholes pricer: for every valid
parameter set, and with the CDF satisfying the symmetry `Φ(-x) = 1 - Φ(x)` of
the standard normal CDF, the call price minus the put price equals
`spot - strike * exp(-r*T)`. -/
theorem C9_put_call_parity (Φ : ℝ → ℝ) (hΦ : ∀ x, Φ (-x) = 1 - Φ x)
    (spot strike tau r sigma : ℝ)
    (hs : 0 < spot) (hk : 0 < strike) (ht : 0 < tau) (hv : 0 < sigma)
    (hr1 : -0.10 ≤ r) (hr2 : r ≤ 0.50) :
    BlackScholesModel.calculate_price Φ spot strike tau r sigma "call" =
      .ok (BlackScholesModel.priceCore Φ spot strike tau r sigma "call") ∧
    BlackScholesModel.calculate_price Φ spot strike tau r sigma "put" =
      .ok (BlackScholesModel.priceCore Φ spot strike tau r sigma "put") ∧
    BlackScholesModel.priceCore Φ spot strike tau r sigma "call" -
      BlackScholesModel.priceCore Φ spot strike tau r sigma "put" =
      spot - strike * Real.exp (-r * tau) := by
  have hvc : validate_inputs spot strike tau r sigma "call" = .ok () :=
    validate_inputs_ok hs hk ht hv hr1 hr2 (Or.inl (by decide))
  have hvp : validate_inputs spot strike tau r sigma "put" = .ok () :=
    validate_inputs_ok hs hk ht hv hr1 hr2 (Or.inr (by decide))
  refine ⟨?_, ?_, ?_⟩
  · unfold BlackScholesModel.calculate_price
    rw [hvc, get_option_type_call (by decide)]
  · unfold BlackScholesModel.calculate_price
    rw [hvp, get_option_type_put (by decide)]
  · unfold BlackScholesModel.priceCore
    rw [if_pos rfl, if_neg (by decide)]
    unfold BlackScholesModel.call_price BlackScholesModel.put_price
    rw [hΦ, hΦ]
    ring

/-- Witness for C9 at spot=100, strike=100, T=1, r=0.05, sigma=0.2 with the
constant one-half CDF (which satisfies the required symmetry). -/
theorem C9_put_call_parity_witness :
    BlackScholesModel.priceCore (fun _ => (1 : ℝ) / 2) 100 100 1 0.05 0.2 "call" -
      BlackScholesModel.priceCore (fun _ => (1 : ℝ) / 2) 100 100 1 0.05 0.2 "put" =
      100 - 100 * Real.exp (-(0.05) * 1) :=
  (C9_put_call_parity (fun _ => (1 : ℝ) / 2) (fun x => by norm_num) 100 100 1 0.05 0.2
    (by norm_num) (by norm_num) (by norm_num) (by norm_num) (by norm_num) (by norm_num)).2.2

/-! ## Monte Carlo theorems -/

theorem exp_le_inv_one_sub {x : ℝ} (hx : x < 1) : Real.exp x ≤ 1 / (1 - x) := by
  have h := Real.add_one_le_exp (-x)
  have hp : (0 : ℝ) < 1 - x := by linarith
  have hpos := Real.exp_pos x
  rw [Real.exp_neg] at h
  have h2 : Real.exp x * (1 - x) ≤ Real.exp x * (Real.exp x)⁻¹ :=
    mul_le_mul_of_nonneg_left (by linarith) (le_of_lt hpos)
  rw [mul_inv_cancel₀ (ne_of_gt hpos)] at h2
  rw [le_div_iff₀ hp]
  linarith

/-- C4: for every valid parameter set and confidence level, Monte Carlo
`calculate_price_with_confidence` prices 10 batches each configured with
`num_simulations / 10` simulations, returns the batch-price mean as the price,
the population standard deviation of the batch prices divided by sqrt(10) as
the standard error, bounds equal to the mean minus and plus
`ppf((1+confidence_level)/2)` times the standard error, and (with the normal
quantile nonnegative at arguments at least one half, i.e. for nonnegative
confidence levels) the result satisfies lower_bound ≤ price ≤ upper_bound. -/
theorem C4_confidence_interval (cfg : MCConfig) (Zs : ℕ → ℕ → ℕ → ℝ) (ppf : ℝ → ℝ)
    (spot strike tau r sigma : ℝ) (ot : String) (c : ℝ)
    (hs : 0 < spot) (hk : 0 < strike) (ht : 0 < tau) (hv : 0 < sigma)
    (hr1 : -0.10 ≤ r) (hr2 : r ≤ 0.50)
    (hot : pyLower ot = "call" ∨ pyLower ot = "put")
    (hz : 0 ≤ ppf ((1 + c) / 2)) :
    ∃ (res : ConfidenceResult) (bp : List ℝ),
      MonteCarloModel.calculate_price_with_confidence cfg Zs ppf spot strike tau r sigma ot c =
        .ok res ∧
      bp = (List.range 10).map (fun b =>
        MonteCarloModel.priceCore ⟨cfg.num_simulations / 10, cfg.num_steps, cfg.antithetic⟩
          (Zs b) spot strike tau r sigma (get_option_type ot)) ∧
      res.price = bp.sum / 10 ∧
      res.std_error = Real.sqrt ((bp.map (fun x => (x - bp.sum / 10) ^ 2)).sum / 10) /
        Real.sqrt 10 ∧
      res.lower_bound = res.price - ppf ((1 + c) / 2) * res.std_error ∧
      res.upper_bound = res.price + ppf ((1 + c) / 2) * res.std_error ∧
      res.confidence_level = c ∧
      res.lower_bound ≤ res.price ∧ res.price ≤ res.upper_bound := by
  have hok := validate_inputs_ok hs hk ht hv hr1 hr2 hot
  have hse : 0 ≤ Real.sqrt
      (((MonteCarloModel.batchPrices cfg Zs spot strike tau r sigma
          (get_option_type ot)).map (fun x =>
        (x - (MonteCarloModel.batchPrices cfg Zs spot strike tau r sigma
          (get_option_type ot)).sum / 10) ^ 2)).sum / 10) / Real.sqrt 10 :=
    div_nonneg (Real.sqrt_nonneg _) (Real.sqrt_nonneg _)
  have hmargin := mul_nonneg hz hse
  have hmain : MonteCarloModel.calculate_price_with_confidence cfg Zs ppf spot strike tau r
      sigma ot c = .ok
        ⟨(MonteCarloModel.batchPrices cfg Zs spot strike tau r sigma
            (get_option_type ot)).sum / 10,
         Real.sqrt (((MonteCarloModel.batchPrices cfg Zs spot strike tau r sigma
              (get_option_type ot)).map (fun x =>
            (x - (MonteCarloModel.batchPrices cfg Zs spot strike tau r sigma
              (get_option_type ot)).sum / 10) ^ 2)).sum / 10) / Real.sqrt 10,
         (MonteCarloModel.batchPrices cfg Zs spot strike tau r sigma
            (get_option_type ot)).sum / 10 - ppf ((1 + c) / 2) *
           (Real.sqrt (((MonteCarloModel.batchPrices cfg Zs spot strike tau r sigma
                (get_option_type ot)).map (fun x =>
              (x - (MonteCarloModel.batchPrices cfg Zs spot strike tau r sigma
                (get_option_type ot)).sum / 10) ^ 2)).sum / 10) / Real.sqrt 10),
         (MonteCarloModel.batchPrices cfg Zs spot strike tau r sigma
            (get_option_type ot)).sum / 10 + ppf ((1 + c) / 2) *
           (Real.sqrt (((MonteCarloModel.batchPrices cfg Zs spot strike tau r sigma
                (get_option_type ot)).map (fun x =>
              (x - (MonteCarloModel.batchPrices cfg Zs spot strike tau r sigma
                (get_option_type ot)).sum / 10) ^ 2)).sum / 10) / Real.sqrt 10),
         c⟩ := by
    unfold MonteCarloModel.calculate_price_with_confidence
    rw [hok]
  exact ⟨_, _, hmain, rfl, rfl, rfl, rfl, rfl, rfl, by simp only; linarith,
    by simp only; linarith⟩

/-- Witness for C4: one antithetic-free configuration, the all-zero streams, a
constant quantile function and confidence level 0.95. -/
theorem C4_confidence_interval_witness :
    ∃ (res : ConfidenceResult) (bp : List ℝ),
      MonteCarloModel.calculate_price_with_confidence ⟨100, 1, false⟩ (fun _ _ _ => 0)
        (fun _ => 2) 100 100 1 0.05 0.2 "call" 0.95 = .ok res ∧
      bp = (List.range 10).map (fun _ =>
        MonteCarloModel.priceCore ⟨100 / 10, 1, false⟩
          (fun _ _ => 0) 100 100 1 0.05 0.2 (get_option_type "call")) ∧
      res.price = bp.sum / 10 ∧
      res.std_error = Real.sqrt ((bp.map (fun x => (x - bp.sum / 10) ^ 2)).sum / 10) /
        Real.sqrt 10 ∧
      res.lower_bound = res.price - 2 * res.std_error ∧
      res.upper_bound = res.price + 2 * res.std_error ∧
      res.confidence_level = 0.95 ∧
      res.lower_bound ≤ res.price ∧ res.price ≤ res.upper_bound :=
  C4_confidence_interval ⟨100, 1, false⟩ (fun _ _ _ => 0) (fun _ => 2) 100 100 1 0.05 0.2
    "call" 0.95 (by norm_num) (by norm_num) (by norm_num) (by norm_num) (by norm_num)
    (by norm_num) (Or.inl (by decide)) (by norm_num)

theorem mc_single_path_call_price (Z : ℕ → ℕ → ℝ) (spot strike tau r sigma : ℝ) :
    MonteCarloModel.priceCore ⟨1, 1, false⟩ Z spot strike tau r sigma "call" =
      Real.exp (-r * tau) *
        (max (spot * Real.exp ((r - 0.5 * sigma ^ 2) * tau + sigma * Real.sqrt tau * Z 0 0)
          - strike) 0 / 1) := by
  unfold MonteCarloModel.priceCore
  simp only [MonteCarloModel.pathCount, MonteCarloModel.pathPayoff, MonteCarloModel.pricePath,
    MonteCarloModel.randomNumbers, MonteCarloModel.numSims]
  norm_num

/-- C7: two Monte Carlo pricings with identical seed, configuration
(num_simulations, num_steps, antithetic) and parameters produce the identical
price regardless of the ambient generator state before seeding (seeding
replaces the generator state by a function of the seed alone); without a seed
the price depends on the ambient state, and two runs from different ambient
states can give different prices. -/
theorem C7_seed_determinism :
    (∀ (G : ℕ → ℕ → ℕ → ℝ) (cfg : MCConfig) (s : ℕ) (ambient1 ambient2 : ℕ → ℕ → ℝ)
        (spot strike tau r sigma : ℝ) (ot : String),
      MonteCarloModel.priceFromSeed G cfg (some s) ambient1 spot strike tau r sigma ot =
        MonteCarloModel.priceFromSeed G cfg (some s) ambient2 spot strike tau r sigma ot) ∧
    MonteCarloModel.priceFromSeed (fun _ _ _ => 0) ⟨1, 1, false⟩ none (fun _ _ => 0)
        100 200 1 0.05 0.2 "call" ≠
      MonteCarloModel.priceFromSeed (fun _ _ _ => 0) ⟨1, 1, false⟩ none (fun _ _ => 10)
        100 200 1 0.05 0.2 "call" := by
  constructor
  · intro G cfg s ambient1 ambient2 spot strike tau r sigma ot
    rfl
  · have hok : validate_inputs 100 200 1 0.05 0.2 "call" = .ok () :=
      validate_inputs_ok (by norm_num) (by norm_num) (by norm_num) (by norm_num)
        (by norm_num) (by norm_num) (Or.inl (by decide))
    have hprice : ∀ Z : ℕ → ℕ → ℝ,
        MonteCarloModel.priceFromSeed (fun _ _ _ => 0) ⟨1, 1, false⟩ none Z
          100 200 1 0.05 0.2 "call" =
        .ok (MonteCarloModel.priceCore ⟨1, 1, false⟩ Z 100 200 1 0.05 0.2 "call") := by
      intro Z
      unfold MonteCarloModel.priceFromSeed MonteCarloModel.calculate_price
      rw [hok, get_option_type_call (by decide)]
    rw [hprice, hprice]
    simp only [ne_eq, Except.ok.injEq]
    rw [mc_single_path_call_price, mc_single_path_call_price]
    intro hcontra
    have hz1 : (100 : ℝ) * Real.exp ((0.05 - 0.5 * 0.2 ^ 2) * 1 + 0.2 * Real.sqrt 1 * 0)
        - 200 ≤ 0 := by
      rw [Real.sqrt_one]
      have hb : Real.exp ((0.05 - 0.5 * (0.2 : ℝ) ^ 2) * 1 + 0.2 * 1 * 0) ≤
          1 / (1 - ((0.05 - 0.5 * (0.2 : ℝ) ^ 2) * 1 + 0.2 * 1 * 0)) :=
        exp_le_inv_one_sub (by norm_num)
      nlinarith [hb]
    have hz2 : (0 : ℝ) < 100 * Real.exp ((0.05 - 0.5 * 0.2 ^ 2) * 1 + 0.2 * Real.sqrt 1 * 10)
        - 200 := by
      rw [Real.sqrt_one]
      have hb := Real.add_one_le_exp (((0.05 - 0.5 * (0.2 : ℝ) ^ 2) * 1 + 0.2 * 1 * 10))
      nlinarith [hb]
    rw [max_eq_right hz1] at hcontra
    have hmax2 : max ((100 : ℝ) * Real.exp ((0.05 - 0.5 * 0.2 ^ 2) * 1 +
        0.2 * Real.sqrt 1 * 10) - 200) 0 =
        100 * Real.exp ((0.05 - 0.5 * 0.2 ^ 2) * 1 + 0.2 * Real.sqrt 1 * 10) - 200 :=
      max_eq_left (le_of_lt hz2)
    rw [hmax2] at hcontra
    have hd : (0 : ℝ) < Real.exp (-(0.05) * 1) := Real.exp_pos _
    have : (0 : ℝ) = Real.exp (-(0.05) * 1) *
        ((100 * Real.exp ((0.05 - 0.5 * 0.2 ^ 2) * 1 + 0.2 * Real.sqrt 1 * 10) - 200) / 1) := by
      rw [← hcontra]
      ring
    rw [Real.sqrt_one] at this hz2
    nlinarith [this, hz2, hd]

/-! ## Binomial tree lemmas -/

theorem option_tree_succ_euro (N : ℕ) (otn : String) (spot strike u d p disc : ℝ) (m j : ℕ) :
    BinomialTreeModel.option_tree N false otn spot strike u d p disc (m + 1) j =
      disc * (p * BinomialTreeModel.option_tree N false otn spot strike u d p disc m (j + 1) +
        (1 - p) * BinomialTreeModel.option_tree N false otn spot strike u d p disc m j) := by
  simp [BinomialTreeModel.option_tree]

theorem option_tree_succ_amer (N : ℕ) (otn : String) (spot strike u d p disc : ℝ) (m j : ℕ) :
    BinomialTreeModel.option_tree N true otn spot strike u d p disc (m + 1) j =
      (if BinomialTreeModel.exerciseValue otn
            (BinomialTreeModel.price_tree spot u d (N - (m + 1)) j) strike >
          disc * (p * BinomialTreeModel.option_tree N true otn spot strike u d p disc m (j + 1) +
            (1 - p) * BinomialTreeModel.option_tree N true otn spot strike u d p disc m j) then
        BinomialTreeModel.exerciseValue otn
          (BinomialTreeModel.price_tree spot u d (N - (m + 1)) j) strike
      else
        disc * (p * BinomialTreeModel.option_tree N true otn spot strike u d p disc m (j + 1) +
          (1 - p) * BinomialTreeModel.option_tree N true otn spot strike u d p disc m j)) := by
  simp [BinomialTreeModel.option_tree]

theorem exerciseValue_nonneg (otn : String) (price strike : ℝ) :
    0 ≤ BinomialTreeModel.exerciseValue otn price strike := by
  unfold BinomialTreeModel.exerciseValue
  split <;> exact le_max_left 0 _

/-- Every node of the American option-value tree dominates the corresponding
European node, provided the risk-neutral probability lies in [0, 1] and the
discount factor is nonnegative. -/
theorem option_tree_amer_ge_euro (N : ℕ) (otn : String) (spot strike u d p disc : ℝ)
    (hp0 : 0 ≤ p) (hp1 : p ≤ 1) (hdisc : 0 ≤ disc) : ∀ (m j : ℕ),
    BinomialTreeModel.option_tree N false otn spot strike u d p disc m j ≤
      BinomialTreeModel.option_tree N true otn spot strike u d p disc m j := by
  intro m
  induction m with
  | zero =>
    intro j
    exact le_of_eq rfl
  | succ k ih =>
    intro j
    rw [option_tree_succ_euro, option_tree_succ_amer]
    have hcont : disc *
        (p * BinomialTreeModel.option_tree N false otn spot strike u d p disc k (j + 1) +
          (1 - p) * BinomialTreeModel.option_tree N false otn spot strike u d p disc k j) ≤
        disc *
        (p * BinomialTreeModel.option_tree N true otn spot strike u d p disc k (j + 1) +
          (1 - p) * BinomialTreeModel.option_tree N true otn spot strike u d p disc k j) := by
      apply mul_le_mul_of_nonneg_left _ hdisc
      have h1 := mul_le_mul_of_nonneg_left (ih (j + 1)) hp0
      have h2 := mul_le_mul_of_nonneg_left (ih j) (by linarith : (0 : ℝ) ≤ 1 - p)
      linarith
    by_cases hex : BinomialTreeModel.exerciseValue otn
        (BinomialTreeModel.price_tree spot u d (N - (k + 1)) j) strike >
        disc * (p * BinomialTreeModel.option_tree N true otn spot strike u d p disc k (j + 1) +
          (1 - p) * BinomialTreeModel.option_tree N true otn spot strike u d p disc k j)
    · rw [if_pos hex]
      linarith
    · rw [if_neg hex]
      exact hcont

/-- Every node of the American option-value tree is nonnegative, with no
assumption at all on the lattice parameters: the terminal payoffs are of the
form max(0, _) and the early-exercise comparison never selects a value below
the (nonnegative) exercise value. -/
theorem option_tree_amer_nonneg (N : ℕ) (otn : String) (spot strike u d p disc : ℝ) :
    ∀ (m j : ℕ), 0 ≤ BinomialTreeModel.option_tree N true otn spot strike u d p disc m j := by
  intro m
  induction m with
  | zero =>
    intro j
    exact exerciseValue_nonneg otn _ strike
  | succ k ih =>
    intro j
    rw [option_tree_succ_amer]
    by_cases hex : BinomialTreeModel.exerciseValue otn
        (BinomialTreeModel.price_tree spot u d (N - (k + 1)) j) strike >
        disc * (p * BinomialTreeModel.option_tree N true otn spot strike u d p disc k (j + 1) +
          (1 - p) * BinomialTreeModel.option_tree N true otn spot strike u d p disc k j)
    · rw [if_pos hex]
      exact exerciseValue_nonneg otn _ strike
    · rw [if_neg hex]
      exact le_trans (exerciseValue_nonneg otn _ strike) (not_lt.mp hex)

/-- C3 (amended): for every valid parameter set and every step count, the
binomial-tree price with american=True is at least the price with
american=False whenever the CRR risk-neutral probability lies in [0, 1]
(that restriction is forced by `C3_counterexample`: the validated parameter
ranges admit p outside [0, 1], and then the ordering can fail). -/
theorem C3_american_ge_european (cfgN : ℕ) (spot strike tau r sigma : ℝ) (ot : String)
    (hs : 0 < spot) (hk : 0 < strike) (ht : 0 < tau) (hv : 0 < sigma)
    (hr1 : -0.10 ≤ r) (hr2 : r ≤ 0.50)
    (hot : pyLower ot = "call" ∨ pyLower ot = "put")
    (hp0 : 0 ≤ BinomialTreeModel.crr_p tau r sigma cfgN)
    (hp1 : BinomialTreeModel.crr_p tau r sigma cfgN ≤ 1) :
    BinomialTreeModel.calculate_price ⟨cfgN, true⟩ spot strike tau r sigma ot =
      .ok (BinomialTreeModel.priceCore ⟨cfgN, true⟩ spot strike tau r sigma
        (get_option_type ot)) ∧
    BinomialTreeModel.calculate_price ⟨cfgN, false⟩ spot strike tau r sigma ot =
      .ok (BinomialTreeModel.priceCore ⟨cfgN, false⟩ spot strike tau r sigma
        (get_option_type ot)) ∧
    BinomialTreeModel.priceCore ⟨cfgN, false⟩ spot strike tau r sigma (get_option_type ot) ≤
      BinomialTreeModel.priceCore ⟨cfgN, true⟩ spot strike tau r sigma (get_option_type ot) := by
  have hok := validate_inputs_ok hs hk ht hv hr1 hr2 hot
  refine ⟨?_, ?_, ?_⟩
  · unfold BinomialTreeModel.calculate_price
    rw [hok]
  · unfold BinomialTreeModel.calculate_price
    rw [hok]
  · unfold BinomialTreeModel.priceCore
    exact option_tree_amer_ge_euro cfgN (get_option_type ot) spot strike _ _ _ _ hp0 hp1
      (le_of_lt (Real.exp_pos _)) cfgN 0

/-- Witness for C3 (amended) at spot=100, strike=100, T=1, r=0, sigma=1, one
step, a put: there p = (1 - exp(-1)) / (exp(1) - exp(-1)), which lies in
[0, 1]. -/
theorem C3_american_ge_european_witness :
    BinomialTreeModel.priceCore ⟨1, false⟩ 100 100 1 0 1 (get_option_type "put") ≤
      BinomialTreeModel.priceCore ⟨1, true⟩ 100 100 1 0 1 (get_option_type "put") := by
  have hu : BinomialTreeModel.crr_u 1 1 1 = Real.exp 1 := by
    unfold BinomialTreeModel.crr_u
    norm_num [Real.sqrt_one]
  have hd : BinomialTreeModel.crr_d 1 1 1 = 1 / Real.exp 1 := by
    unfold BinomialTreeModel.crr_d
    rw [hu]
  have hepos := Real.exp_pos (1 : ℝ)
  have he1 : 1 < Real.exp 1 := by
    have := Real.add_one_le_exp (1 : ℝ)
    linarith
  have hdlt : 1 / Real.exp 1 < 1 := by
    rw [div_lt_one hepos]
    exact he1
  have hdpos : 0 < 1 / Real.exp 1 := by positivity
  have hnum : BinomialTreeModel.crr_p 1 0 1 1 =
      (1 - 1 / Real.exp 1) / (Real.exp 1 - 1 / Real.exp 1) := by
    unfold BinomialTreeModel.crr_p
    rw [hu, hd]
    norm_num
  have hp0 : 0 ≤ BinomialTreeModel.crr_p 1 0 1 1 := by
    rw [hnum]
    apply div_nonneg <;> linarith
  have hp1 : BinomialTreeModel.crr_p 1 0 1 1 ≤ 1 := by
    rw [hnum]
    rw [div_le_one (by linarith)]
    linarith
  exact (C3_american_ge_european 1 100 100 1 0 1 "put" (by norm_num) (by norm_num)
    (by norm_num) (by norm_num) (by norm_num) (by norm_num) (Or.inr (by decide))
    hp0 hp1).2.2

/-! ## A valid parameter set with risk-neutral probability above one -/

theorem sqrt_two_lt_three_half : Real.sqrt 2 < 3 / 2 := by
  rw [show (3 / 2 : ℝ) = Real.sqrt ((3 / 2) ^ 2) from (Real.sqrt_sq (by norm_num)).symm]
  exact Real.sqrt_lt_sqrt (by norm_num) (by norm_num)

theorem five_fourth_le_sqrt_two : 5 / 4 ≤ Real.sqrt 2 := by
  rw [show (5 / 4 : ℝ) = Real.sqrt ((5 / 4) ^ 2) from (Real.sqrt_sq (by norm_num)).symm]
  exact Real.sqrt_le_sqrt (by norm_num)

theorem cexB_gt_one : 1 < Real.exp (0.2 * Real.sqrt 2) := by
  have hx : (0 : ℝ) < 0.2 * Real.sqrt 2 :=
    mul_pos (by norm_num) (Real.sqrt_pos.mpr (by norm_num))
  have := Real.add_one_le_exp (0.2 * Real.sqrt 2)
  linarith

theorem cexB_le : Real.exp (0.2 * Real.sqrt 2) ≤ 10 / 7 := by
  have hx : (0.2 : ℝ) * Real.sqrt 2 ≤ 3 / 10 := by
    have := sqrt_two_lt_three_half
    nlinarith
  have h1 : Real.exp (0.2 * Real.sqrt 2) ≤ Real.exp (3 / 10) := Real.exp_le_exp.mpr hx
  have h2 : Real.exp ((3 : ℝ) / 10) ≤ 1 / (1 - 3 / 10) := exp_le_inv_one_sub (by norm_num)
  have h3 : (1 : ℝ) / (1 - 3 / 10) = 10 / 7 := by norm_num
  linarith

theorem cexB_ge : 5 / 4 ≤ Real.exp (0.2 * Real.sqrt 2) := by
  have hx : (1 : ℝ) / 4 ≤ 0.2 * Real.sqrt 2 := by
    have := five_fourth_le_sqrt_two
    nlinarith
  have := Real.add_one_le_exp (0.2 * Real.sqrt 2)
  linarith

theorem cex_disc_ge : 9 / 25 ≤ Real.exp (-1 : ℝ) := by
  have h : Real.exp 1 ≤ 25 / 9 := by
    have := Real.exp_one_lt_d9
    linarith
  have h2 := one_div_le_one_div_of_le (Real.exp_pos 1) h
  rw [Real.exp_neg, inv_eq_one_div]
  have h3 : (1 : ℝ) / (25 / 9) = 9 / 25 := by norm_num
  linarith

theorem cex_p_ge : 19 / 10 ≤
    (Real.exp 1 - 1 / Real.exp (0.2 * Real.sqrt 2)) /
      (Real.exp (0.2 * Real.sqrt 2) - 1 / Real.exp (0.2 * Real.sqrt 2)) := by
  have hBpos : 0 < Real.exp (0.2 * Real.sqrt 2) := Real.exp_pos _
  have hB1 := cexB_gt_one
  have hBle := cexB_le
  have hdpos : 0 < 1 / Real.exp (0.2 * Real.sqrt 2) := by positivity
  have hdlt : 1 / Real.exp (0.2 * Real.sqrt 2) < 1 := by
    rw [div_lt_one hBpos]; exact hB1
  have hden : 0 < Real.exp (0.2 * Real.sqrt 2) - 1 / Real.exp (0.2 * Real.sqrt 2) := by
    linarith
  rw [le_div_iff₀ hden]
  have he := Real.exp_one_gt_d9
  nlinarith

/-! ## Backward-induction values for the concrete two-step and one-step puts -/

theorem option_tree_terminal_put (N : ℕ) (am : Bool) (u d p disc : ℝ) (j : ℕ) :
    BinomialTreeModel.option_tree N am "put" 100 100 u d p disc 0 j =
      max 0 (100 - 100 * u ^ j * d ^ (N - j)) := by
  show BinomialTreeModel.exerciseValue "put" (BinomialTreeModel.price_tree 100 u d N j) 100 = _
  unfold BinomialTreeModel.exerciseValue BinomialTreeModel.price_tree
  rw [if_neg (by decide)]

theorem euro_two_step_put (u d p disc : ℝ) (hu : 1 < u) (hd0 : 0 < d) (hud : u * d = 1) :
    BinomialTreeModel.option_tree 2 false "put" 100 100 u d p disc 2 0 =
      disc ^ 2 * (1 - p) ^ 2 * (100 - 100 * d ^ 2) := by
  have hd1 : d < 1 := by nlinarith
  have t00 : BinomialTreeModel.option_tree 2 false "put" 100 100 u d p disc 0 0 =
      100 - 100 * d ^ 2 := by
    rw [option_tree_terminal_put]
    simp only [pow_zero, pow_one, mul_one, Nat.sub_zero]
    exact max_eq_right (by nlinarith)
  have t01 : BinomialTreeModel.option_tree 2 false "put" 100 100 u d p disc 0 1 = 0 := by
    rw [option_tree_terminal_put]
    simp only [show (2 : ℕ) - 1 = 1 from rfl, pow_one]
    rw [mul_assoc, hud, mul_one, sub_self, max_self]
  have t02 : BinomialTreeModel.option_tree 2 false "put" 100 100 u d p disc 0 2 = 0 := by
    rw [option_tree_terminal_put]
    simp only [show (2 : ℕ) - 2 = 0 from rfl, pow_zero, mul_one]
    exact max_eq_left (by nlinarith)
  have e10 : BinomialTreeModel.option_tree 2 false "put" 100 100 u d p disc 1 0 =
      disc * ((1 - p) * (100 - 100 * d ^ 2)) := by
    rw [option_tree_succ_euro, t01, t00]
    ring
  have e11 : BinomialTreeModel.option_tree 2 false "put" 100 100 u d p disc 1 1 = 0 := by
    rw [option_tree_succ_euro, t02, t01]
    ring
  rw [option_tree_succ_euro, e11, e10]
  ring

theorem amer_two_step_put (u d p disc : ℝ) (hu : 1 < u) (hd0 : 0 < d) (hud : u * d = 1)
    (hdisc : 0 < disc) (hp : 1 < p) :
    BinomialTreeModel.option_tree 2 true "put" 100 100 u d p disc 2 0 = 0 := by
  have hd1 : d < 1 := by nlinarith
  have t00 : BinomialTreeModel.option_tree 2 true "put" 100 100 u d p disc 0 0 =
      100 - 100 * d ^ 2 := by
    rw [option_tree_terminal_put]
    simp only [pow_zero, pow_one, mul_one, Nat.sub_zero]
    exact max_eq_right (by nlinarith)
  have t01 : BinomialTreeModel.option_tree 2 true "put" 100 100 u d p disc 0 1 = 0 := by
    rw [option_tree_terminal_put]
    simp only [show (2 : ℕ) - 1 = 1 from rfl, pow_one]
    rw [mul_assoc, hud, mul_one, sub_self, max_self]
  have t02 : BinomialTreeModel.option_tree 2 true "put" 100 100 u d p disc 0 2 = 0 := by
    rw [option_tree_terminal_put]
    simp only [show (2 : ℕ) - 2 = 0 from rfl, pow_zero, mul_one]
    exact max_eq_left (by nlinarith)
  have hpt10 : BinomialTreeModel.price_tree 100 u d 1 0 = 100 * d := by
    unfold BinomialTreeModel.price_tree
    simp only [pow_zero, pow_one, mul_one, Nat.sub_zero]
  have hpt11 : BinomialTreeModel.price_tree 100 u d 1 1 = 100 * u := by
    unfold BinomialTreeModel.price_tree
    simp only [show (1 : ℕ) - 1 = 0 from rfl, pow_zero, pow_one, mul_one]
  have hpt00 : BinomialTreeModel.price_tree 100 u d 0 0 = 100 := by
    unfold BinomialTreeModel.price_tree
    simp only [pow_zero, mul_one, Nat.sub_zero]
  have hex10 : BinomialTreeModel.exerciseValue "put" (BinomialTreeModel.price_tree 100 u d 1 0)
      100 = 100 - 100 * d := by
    unfold BinomialTreeModel.exerciseValue
    rw [if_neg (by decide), hpt10, max_eq_right (by nlinarith)]
  have hex11 : BinomialTreeModel.exerciseValue "put" (BinomialTreeModel.price_tree 100 u d 1 1)
      100 = 0 := by
    unfold BinomialTreeModel.exerciseValue
    rw [if_neg (by decide), hpt11, max_eq_left (by nlinarith)]
  have hex00 : BinomialTreeModel.exerciseValue "put" (BinomialTreeModel.price_tree 100 u d 0 0)
      100 = 0 := by
    unfold BinomialTreeModel.exerciseValue
    rw [if_neg (by decide), hpt00]
    simp
  have a10 : BinomialTreeModel.option_tree 2 true "put" 100 100 u d p disc 1 0 =
      100 - 100 * d := by
    rw [option_tree_succ_amer]
    have hcont : disc * (p * BinomialTreeModel.option_tree 2 true "put" 100 100 u d p disc 0 1 +
        (1 - p) * BinomialTreeModel.option_tree 2 true "put" 100 100 u d p disc 0 0) =
        disc * ((1 - p) * (100 - 100 * d ^ 2)) := by
      rw [t01, t00]
      ring
    rw [show (2 : ℕ) - (0 + 1) = 1 from rfl, hex10, hcont]
    rw [if_pos ?_]
    have hneg : disc * ((1 - p) * (100 - 100 * d ^ 2)) < 0 :=
      mul_neg_of_pos_of_neg hdisc (mul_neg_of_neg_of_pos (by linarith) (by nlinarith))
    linarith
  have a11 : BinomialTreeModel.option_tree 2 true "put" 100 100 u d p disc 1 1 = 0 := by
    rw [option_tree_succ_amer]
    have hcont : disc * (p * BinomialTreeModel.option_tree 2 true "put" 100 100 u d p disc 0 2 +
        (1 - p) * BinomialTreeModel.option_tree 2 true "put" 100 100 u d p disc 0 1) = 0 := by
      rw [t02, t01]
      ring
    rw [show (2 : ℕ) - (0 + 1) = 1 from rfl, hex11, hcont]
    rw [if_neg (lt_irrefl 0)]
  rw [option_tree_succ_amer]
  have hcont : disc * (p * BinomialTreeModel.option_tree 2 true "put" 100 100 u d p disc 1 1 +
      (1 - p) * BinomialTreeModel.option_tree 2 true "put" 100 100 u d p disc 1 0) =
      disc * ((1 - p) * (100 - 100 * d)) := by
    rw [a11, a10]
    ring
  rw [show (2 : ℕ) - (1 + 1) = 0 from rfl, hex00, hcont]
  have hneg : disc * ((1 - p) * (100 - 100 * d)) < 0 :=
    mul_neg_of_pos_of_neg hdisc (mul_neg_of_neg_of_pos (by linarith) (by nlinarith))
  rw [if_pos hneg]

theorem euro_one_step_put (u d p disc : ℝ) (hu : 1 < u) (hd0 : 0 < d) (hud : u * d = 1) :
    BinomialTreeModel.option_tree 1 false "put" 100 100 u d p disc 1 0 =
      disc * ((1 - p) * (100 - 100 * d)) := by
  have hd1 : d < 1 := by nlinarith
  have t0 : BinomialTreeModel.option_tree 1 false "put" 100 100 u d p disc 0 0 =
      100 - 100 * d := by
    rw [option_tree_terminal_put]
    simp only [pow_zero, pow_one, mul_one, Nat.sub_zero]
    exact max_eq_right (by nlinarith)
  have t1 : BinomialTreeModel.option_tree 1 false "put" 100 100 u d p disc 0 1 = 0 := by
    rw [option_tree_terminal_put]
    simp only [show (1 : ℕ) - 1 = 0 from rfl, pow_zero, pow_one, mul_one]
    exact max_eq_left (by nlinarith)
  rw [option_tree_succ_euro, t1, t0]
  ring

theorem crr_u_cex2 : BinomialTreeModel.crr_u 4 0.2 2 = Real.exp (0.2 * Real.sqrt 2) := by
  unfold BinomialTreeModel.crr_u
  norm_num

theorem crr_u_cex1 : BinomialTreeModel.crr_u 2 0.2 1 = Real.exp (0.2 * Real.sqrt 2) := by
  unfold BinomialTreeModel.crr_u
  norm_num

theorem crr_d_cex2 : BinomialTreeModel.crr_d 4 0.2 2 = 1 / Real.exp (0.2 * Real.sqrt 2) := by
  unfold BinomialTreeModel.crr_d
  rw [crr_u_cex2]

theorem crr_d_cex1 : BinomialTreeModel.crr_d 2 0.2 1 = 1 / Real.exp (0.2 * Real.sqrt 2) := by
  unfold BinomialTreeModel.crr_d
  rw [crr_u_cex1]

theorem crr_p_cex2 : BinomialTreeModel.crr_p 4 0.5 0.2 2 =
    (Real.exp 1 - 1 / Real.exp (0.2 * Real.sqrt 2)) /
      (Real.exp (0.2 * Real.sqrt 2) - 1 / Real.exp (0.2 * Real.sqrt 2)) := by
  unfold BinomialTreeModel.crr_p
  rw [crr_u_cex2, crr_d_cex2]
  norm_num

theorem crr_p_cex1 : BinomialTreeModel.crr_p 2 0.5 0.2 1 =
    (Real.exp 1 - 1 / Real.exp (0.2 * Real.sqrt 2)) /
      (Real.exp (0.2 * Real.sqrt 2) - 1 / Real.exp (0.2 * Real.sqrt 2)) := by
  unfold BinomialTreeModel.crr_p
  rw [crr_u_cex1, crr_d_cex1]
  norm_num

theorem crr_disc_cex2 : BinomialTreeModel.crr_disc 4 0.5 2 = Real.exp (-1 : ℝ) := by
  unfold BinomialTreeModel.crr_disc
  norm_num

theorem crr_disc_cex1 : BinomialTreeModel.crr_disc 2 0.5 1 = Real.exp (-1 : ℝ) := by
  unfold BinomialTreeModel.crr_disc
  norm_num

/-- C3 is refuted on the code: at the valid parameter set spot=100, strike=100,
T=4, r=0.5, sigma=0.2 (all inside the validated ranges) with 2 steps, the CRR
risk-neutral probability exceeds one and the American put prices to exactly 0
while the European put prices to a value of at least 1 — so the American price
is not greater than or equal to the European price within any small
tolerance. -/
theorem C3_counterexample :
    validate_inputs 100 100 4 0.5 0.2 "put" = .ok () ∧
    BinomialTreeModel.calculate_price ⟨2, true⟩ 100 100 4 0.5 0.2 "put" = .ok 0 ∧
    ∃ v, BinomialTreeModel.calculate_price ⟨2, false⟩ 100 100 4 0.5 0.2 "put" = .ok v ∧
      1 ≤ v := by
  have hval : validate_inputs 100 100 4 0.5 0.2 "put" = .ok () :=
    validate_inputs_ok (by norm_num) (by norm_num) (by norm_num) (by norm_num) (by norm_num)
      (by norm_num) (Or.inr (by decide))
  have hBpos : 0 < Real.exp (0.2 * Real.sqrt 2) := Real.exp_pos _
  have hB1 := cexB_gt_one
  have hdpos : 0 < 1 / Real.exp (0.2 * Real.sqrt 2) := by positivity
  have hud : Real.exp (0.2 * Real.sqrt 2) * (1 / Real.exp (0.2 * Real.sqrt 2)) = 1 :=
    mul_one_div_cancel (ne_of_gt hBpos)
  have hp_ge := cex_p_ge
  have hp1 : 1 < (Real.exp 1 - 1 / Real.exp (0.2 * Real.sqrt 2)) /
      (Real.exp (0.2 * Real.sqrt 2) - 1 / Real.exp (0.2 * Real.sqrt 2)) := by linarith
  have hdisc_pos : 0 < Real.exp (-1 : ℝ) := Real.exp_pos _
  refine ⟨hval, ?_, ?_⟩
  · unfold BinomialTreeModel.calculate_price
    rw [hval, get_option_type_put (by decide)]
    unfold BinomialTreeModel.priceCore
    rw [crr_u_cex2, crr_d_cex2, crr_p_cex2, crr_disc_cex2]
    rw [amer_two_step_put _ _ _ _ hB1 hdpos hud hdisc_pos hp1]
  · refine ⟨Real.exp (-1 : ℝ) ^ 2 *
      (1 - (Real.exp 1 - 1 / Real.exp (0.2 * Real.sqrt 2)) /
        (Real.exp (0.2 * Real.sqrt 2) - 1 / Real.exp (0.2 * Real.sqrt 2))) ^ 2 *
      (100 - 100 * (1 / Real.exp (0.2 * Real.sqrt 2)) ^ 2), ?_, ?_⟩
    · unfold BinomialTreeModel.calculate_price
      rw [hval, get_option_type_put (by decide)]
      unfold BinomialTreeModel.priceCore
      rw [crr_u_cex2, crr_d_cex2, crr_p_cex2, crr_disc_cex2]
      rw [euro_two_step_put _ _ _ _ hB1 hdpos hud]
    · have hd_le : 1 / Real.exp (0.2 * Real.sqrt 2) ≤ 4 / 5 := by
        have h1 := one_div_le_one_div_of_le (by norm_num : (0 : ℝ) < 5 / 4) cexB_ge
        have h2 : (1 : ℝ) / (5 / 4) = 4 / 5 := by norm_num
        linarith
      have hA : (36 : ℝ) ≤ 100 - 100 * (1 / Real.exp (0.2 * Real.sqrt 2)) ^ 2 := by
        nlinarith
      have hdisc_ge := cex_disc_ge
      have hp2 : (9 / 10 : ℝ) ^ 2 ≤
          ((Real.exp 1 - 1 / Real.exp (0.2 * Real.sqrt 2)) /
            (Real.exp (0.2 * Real.sqrt 2) - 1 / Real.exp (0.2 * Real.sqrt 2)) - 1) ^ 2 := by
        have h := hp_ge
        nlinarith
      have hdisc2 : (9 / 25 : ℝ) ^ 2 ≤ Real.exp (-1 : ℝ) ^ 2 := by
        nlinarith
      have hsq : (1 - (Real.exp 1 - 1 / Real.exp (0.2 * Real.sqrt 2)) /
          (Real.exp (0.2 * Real.sqrt 2) - 1 / Real.exp (0.2 * Real.sqrt 2))) ^ 2 =
          ((Real.exp 1 - 1 / Real.exp (0.2 * Real.sqrt 2)) /
            (Real.exp (0.2 * Real.sqrt 2) - 1 / Real.exp (0.2 * Real.sqrt 2)) - 1) ^ 2 := by
        ring
      rw [hsq]
      have hstep1 : (9 / 25 : ℝ) ^ 2 * (9 / 10) ^ 2 ≤ Real.exp (-1 : ℝ) ^ 2 *
          ((Real.exp 1 - 1 / Real.exp (0.2 * Real.sqrt 2)) /
            (Real.exp (0.2 * Real.sqrt 2) - 1 / Real.exp (0.2 * Real.sqrt 2)) - 1) ^ 2 :=
        mul_le_mul hdisc2 hp2 (by norm_num) (sq_nonneg _)
      have hstep2 : (9 / 25 : ℝ) ^ 2 * (9 / 10) ^ 2 * 36 ≤ Real.exp (-1 : ℝ) ^ 2 *
          ((Real.exp 1 - 1 / Real.exp (0.2 * Real.sqrt 2)) /
            (Real.exp (0.2 * Real.sqrt 2) - 1 / Real.exp (0.2 * Real.sqrt 2)) - 1) ^ 2 *
          (100 - 100 * (1 / Real.exp (0.2 * Real.sqrt 2)) ^ 2) :=
        mul_le_mul hstep1 hA (by norm_num) (mul_nonneg (sq_nonneg _) (sq_nonneg _))
      have hnum : (1 : ℝ) ≤ (9 / 25 : ℝ) ^ 2 * (9 / 10) ^ 2 * 36 := by norm_num
      linarith

/-- C10: every node of the American binomial option-value tree is nonnegative
and hence so is the returned American price, for all parameter values and step
counts — with no assumption on the CRR risk-neutral probability, because the
nonnegative exercise value max(0, _) replaces any smaller continuation value —
while the analogous nonnegativity fails for american=False: at the valid
parameter set spot=100, strike=100, T=2, r=0.5, sigma=0.2 with one step, the
risk-neutral probability exceeds one and the returned European put price is
strictly negative. -/
theorem C10_american_nonneg_european_not :
    (∀ (N : ℕ) (otn : String) (spot strike u d p disc : ℝ) (m j : ℕ),
      0 ≤ BinomialTreeModel.option_tree N true otn spot strike u d p disc m j) ∧
    (∀ (cfgN : ℕ) (spot strike tau r sigma : ℝ) (otn : String),
      0 ≤ BinomialTreeModel.priceCore ⟨cfgN, true⟩ spot strike tau r sigma otn) ∧
    validate_inputs 100 100 2 0.5 0.2 "put" = .ok () ∧
    1 < BinomialTreeModel.crr_p 2 0.5 0.2 1 ∧
    BinomialTreeModel.calculate_price ⟨1, false⟩ 100 100 2 0.5 0.2 "put" =
      .ok (BinomialTreeModel.priceCore ⟨1, false⟩ 100 100 2 0.5 0.2 "put") ∧
    BinomialTreeModel.priceCore ⟨1, false⟩ 100 100 2 0.5 0.2 "put" < 0 := by
  have hval : validate_inputs 100 100 2 0.5 0.2 "put" = .ok () :=
    validate_inputs_ok (by norm_num) (by norm_num) (by norm_num) (by norm_num) (by norm_num)
      (by norm_num) (Or.inr (by decide))
  have hBpos : 0 < Real.exp (0.2 * Real.sqrt 2) := Real.exp_pos _
  have hB1 := cexB_gt_one
  have hdpos : 0 < 1 / Real.exp (0.2 * Real.sqrt 2) := by positivity
  have hdlt : 1 / Real.exp (0.2 * Real.sqrt 2) < 1 := by
    rw [div_lt_one hBpos]; exact hB1
  have hud : Real.exp (0.2 * Real.sqrt 2) * (1 / Real.exp (0.2 * Real.sqrt 2)) = 1 :=
    mul_one_div_cancel (ne_of_gt hBpos)
  have hp1 : 1 < (Real.exp 1 - 1 / Real.exp (0.2 * Real.sqrt 2)) /
      (Real.exp (0.2 * Real.sqrt 2) - 1 / Real.exp (0.2 * Real.sqrt 2)) := by
    linarith [cex_p_ge]
  refine ⟨fun N otn spot strike u d p disc m j =>
      option_tree_amer_nonneg N otn spot strike u d p disc m j,
    fun cfgN spot strike tau r sigma otn =>
      option_tree_amer_nonneg cfgN otn spot strike _ _ _ _ cfgN 0,
    hval, ?_, ?_, ?_⟩
  · rw [crr_p_cex1]
    exact hp1
  · unfold BinomialTreeModel.calculate_price
    rw [hval, get_option_type_put (by decide)]
  · unfold BinomialTreeModel.priceCore
    rw [crr_u_cex1, crr_d_cex1, crr_p_cex1, crr_disc_cex1]
    rw [euro_one_step_put _ _ _ _ hB1 hdpos hud]
    exact mul_neg_of_pos_of_neg (Real.exp_pos _)
      (mul_neg_of_neg_of_pos (by linarith) (by nlinarith))

/-! ## Greeks theorems -/

theorem greeks_non_call_as_put (Φ P : ℝ → ℝ) (spot strike tau r sigma : ℝ) (ot : String)
    (h : ¬ pyLower ot = "call") :
    GreeksCalculator.calculate_all_greeks Φ P spot strike tau r sigma ot =
      GreeksCalculator.calculate_all_greeks Φ P spot strike tau r sigma "put" := by
  unfold GreeksCalculator.calculate_all_greeks GreeksCalculator.delta GreeksCalculator.theta
    GreeksCalculator.rho
  rw [if_neg h, if_neg h, if_neg h, if_neg (show ¬ pyLower "put" = "call" by decide),
    if_neg (show ¬ pyLower "put" = "call" by decide),
    if_neg (show ¬ pyLower "put" = "call" by decide)]

/-- C8 is refuted on the code: calculations/greeks.py performs no input
validation at all.  With the unrecognized option_type "straddle" (valid
numeric parameters), `calculate_all_greeks` does not raise: it silently
computes the put Greeks; and even with the invalid spot = -1 it computes and
returns a Delta from the d1 formula instead of raising. -/
theorem C8_counterexample :
    GreeksCalculator.calculate_all_greeks (fun x => x) (fun x => x) 100 100 1 0.05 0.2
        "straddle" =
      GreeksCalculator.calculate_all_greeks (fun x => x) (fun x => x) 100 100 1 0.05 0.2
        "put" ∧
    (GreeksCalculator.calculate_all_greeks (fun x => x) (fun x => x) (-1) 100 1 0.05 0.2
        "call").Delta = GreeksCalculator.calc_d1 (-1) 100 1 0.05 0.2 := by
  constructor
  · exact greeks_non_call_as_put _ _ _ _ _ _ _ _ (by decide)
  · show GreeksCalculator.delta (fun x => x) (-1) 100 1 0.05 0.2 "call" = _
    unfold GreeksCalculator.delta
    rw [if_pos (by decide)]

/-- C8 (amended): GreeksCalculator does not reuse the pricers' validation:
`calculate_all_greeks` is a total function that never raises InvalidParameter;
it computes the analytic formulas directly on whatever inputs it is given
(valid or not), and it treats every option_type whose lowercase form is not
"call" as a put. -/
theorem C8_amended_no_validation (Φ P : ℝ → ℝ) (spot strike tau r sigma : ℝ) (ot : String) :
    (¬ pyLower ot = "call" →
      GreeksCalculator.calculate_all_greeks Φ P spot strike tau r sigma ot =
        GreeksCalculator.calculate_all_greeks Φ P spot strike tau r sigma "put") ∧
    (GreeksCalculator.calculate_all_greeks Φ P spot strike tau r sigma ot).Delta =
      (if pyLower ot = "call"
        then Φ (GreeksCalculator.calc_d1 spot strike tau r sigma)
        else Φ (GreeksCalculator.calc_d1 spot strike tau r sigma) - 1) ∧
    (GreeksCalculator.calculate_all_greeks Φ P spot strike tau r sigma ot).Gamma =
      P (GreeksCalculator.calc_d1 spot strike tau r sigma) /
        (spot * sigma * Real.sqrt tau) ∧
    (GreeksCalculator.calculate_all_greeks Φ P spot strike tau r sigma ot).Vega =
      spot * P (GreeksCalculator.calc_d1 spot strike tau r sigma) * Real.sqrt tau / 100 := by
  exact ⟨fun h => greeks_non_call_as_put Φ P spot strike tau r sigma ot h, rfl, rfl, rfl⟩

/-- Witness for C8 (amended) at the unrecognized option type "straddle". -/
theorem C8_amended_no_validation_witness :
    GreeksCalculator.calculate_all_greeks (fun x => x) (fun x => x) 100 100 1 0.05 0.2
        "straddle" =
      GreeksCalculator.calculate_all_greeks (fun x => x) (fun x => x) 100 100 1 0.05 0.2
        "put" :=
  (C8_amended_no_validation (fun x => x) (fun x => x) 100 100 1 0.05 0.2 "straddle").1
    (by decide)

/-! ## Strategy theorems: max profit and max loss -/

theorem mem_map_range {β : Type} (f : ℕ → β) {n i : ℕ} (h : i < n) (b : β) (hb : b = f i) :
    b ∈ (List.range n).map f := by
  subst hb
  exact List.mem_map_of_mem f (List.mem_range.mpr h)

theorem calculate_payoff_ne_nil (legs : List OptionLeg) :
    OptionStrategy.calculate_payoff legs (OptionStrategy.analysisRange legs) ≠ [] := by
  unfold OptionStrategy.calculate_payoff OptionStrategy.analysisRange
  simp [List.range_eq_nil]

/-- C5 (amended): `max_profit` is the greatest and `max_loss` the least value
of `calculate_payoff` over the code's analysis range — 1000 evenly spaced
samples from `max(min_strike - 0.5*(max_strike - min_strike), 0.01)` to
`max_strike + 0.5*(max_strike - min_strike)`: both are attained at a sample
and bound every sampled payoff. -/
theorem C5_max_profit_loss (legs : List OptionLeg) :
    OptionStrategy.max_profit legs =
      listMax (OptionStrategy.calculate_payoff legs (OptionStrategy.analysisRange legs)) ∧
    OptionStrategy.max_loss legs =
      listMin (OptionStrategy.calculate_payoff legs (OptionStrategy.analysisRange legs)) ∧
    (∀ x ∈ OptionStrategy.calculate_payoff legs (OptionStrategy.analysisRange legs),
      OptionStrategy.max_loss legs ≤ x ∧ x ≤ OptionStrategy.max_profit legs) ∧
    OptionStrategy.max_profit legs ∈
      OptionStrategy.calculate_payoff legs (OptionStrategy.analysisRange legs) ∧
    OptionStrategy.max_loss legs ∈
      OptionStrategy.calculate_payoff legs (OptionStrategy.analysisRange legs) := by
  refine ⟨rfl, rfl, ?_, ?_, ?_⟩
  · intro x hx
    exact ⟨listMin_le hx, le_listMax hx⟩
  · exact listMax_mem (calculate_payoff_ne_nil legs)
  · exact listMin_mem (calculate_payoff_ne_nil legs)

/-- Witness for C5 (amended): a single long call leg. -/
theorem C5_max_profit_loss_witness :
    OptionStrategy.max_loss [⟨"call", 100, "long", 1, 0⟩] ≤
      OptionStrategy.max_profit [⟨"call", 100, "long", 1, 0⟩] := by
  have h := C5_max_profit_loss [⟨"call", 100, "long", 1, 0⟩]
  exact (h.2.2.1 _ h.2.2.2.1).1

theorem single_put_sample (i : ℕ) :
    OptionStrategy.sampleAt [⟨"put", 100, "long", 1, 1⟩] i = 100 := by
  unfold OptionStrategy.sampleAt OptionStrategy.rangeStart OptionStrategy.rangeEnd
  simp only [List.map_cons, List.map_nil]
  rw [show listMin [(100 : ℝ)] = 100 from rfl, show listMax [(100 : ℝ)] = 100 from rfl]
  rw [show (100 : ℝ) - 0.5 * (100 - 100) = 100 by ring, max_eq_left (by norm_num)]
  ring

theorem single_put_payoff_at_100 :
    OptionStrategy.payoffAt [⟨"put", 100, "long", 1, 1⟩] 100 = -1 := by
  norm_num [OptionStrategy.payoffAt, OptionLeg.payoff]

theorem single_put_payoff_at_50 :
    OptionStrategy.payoffAt [⟨"put", 100, "long", 1, 1⟩] 50 = 49 := by
  norm_num [OptionStrategy.payoffAt, OptionLeg.payoff]
  rw [if_neg (show ¬ ("put" = "call") by decide)]
  norm_num

/-- C5 is refuted on the code: for the single-leg strategy long one put at
strike 100 with premium 1, the code's analysis range is degenerate (all 1000
samples equal 100, because the range is half the strike *width* — here zero —
around the strikes, not 50 percent of the strike value), so `max_profit`
returns -1; over the range the claim describes (50 percent below the minimum
strike to 50 percent above the maximum strike, i.e. 50 to 150) the maximum
sampled payoff is at least 49. -/
theorem C5_counterexample :
    OptionStrategy.max_profit [⟨"put", 100, "long", 1, 1⟩] = -1 ∧
    49 ≤ listMax (OptionStrategy.calculate_payoff [⟨"put", 100, "long", 1, 1⟩]
      (OptionStrategy.claimedRange [⟨"put", 100, "long", 1, 1⟩])) ∧
    OptionStrategy.max_profit [⟨"put", 100, "long", 1, 1⟩] ≠
      listMax (OptionStrategy.calculate_payoff [⟨"put", 100, "long", 1, 1⟩]
        (OptionStrategy.claimedRange [⟨"put", 100, "long", 1, 1⟩])) := by
  have hmax : OptionStrategy.max_profit [⟨"put", 100, "long", 1, 1⟩] = -1 := by
    unfold OptionStrategy.max_profit
    apply listMax_all_eq (calculate_payoff_ne_nil _)
    intro x hx
    unfold OptionStrategy.calculate_payoff OptionStrategy.analysisRange at hx
    simp only [List.map_map, List.mem_map, List.mem_range, Function.comp] at hx
    obtain ⟨i, _, hi⟩ := hx
    rw [← hi, single_put_sample, single_put_payoff_at_100]
  have h50 : (50 : ℝ) ∈ OptionStrategy.claimedRange [⟨"put", 100, "long", 1, 1⟩] := by
    unfold OptionStrategy.claimedRange
    apply mem_map_range _ (show 0 < 1000 by norm_num)
    simp only [List.map_cons, List.map_nil]
    rw [show listMin [(100 : ℝ)] = 100 from rfl, show listMax [(100 : ℝ)] = 100 from rfl]
    norm_num
  have hmem : (49 : ℝ) ∈ OptionStrategy.calculate_payoff [⟨"put", 100, "long", 1, 1⟩]
      (OptionStrategy.claimedRange [⟨"put", 100, "long", 1, 1⟩]) := by
    unfold OptionStrategy.calculate_payoff
    rw [← single_put_payoff_at_50]
    exact List.mem_map_of_mem _ h50
  refine ⟨hmax, le_listMax hmem, ?_⟩
  rw [hmax]
  intro hcontra
  have := le_listMax hmem
  linarith

/-! ## Strategy theorems: break-even points -/

theorem foldl_ite_append_eq_filterMap {α β : Type} (c : α → Prop) [DecidablePred c]
    (g : α → β) : ∀ (l : List α) (acc : List β),
    l.foldl (fun acc a => if c a then acc ++ [g a] else acc) acc =
      acc ++ l.filterMap (fun a => if c a then some (g a) else none) := by
  intro l
  induction l with
  | nil => intro acc; simp
  | cons x xs ih =>
    intro acc
    simp only [List.foldl_cons, List.filterMap_cons]
    by_cases h : c x
    · rw [if_pos h, ih]
      simp [h]
    · rw [if_neg h, ih]
      simp [h]

theorem break_even_eq_filterMap (legs : List OptionLeg) :
    OptionStrategy.break_even_points legs =
      (List.range 999).filterMap (fun i =>
        if OptionStrategy.payAt legs i * OptionStrategy.payAt legs (i + 1) < 0 then
          some (OptionStrategy.interpAt legs i)
        else none) := by
  unfold OptionStrategy.break_even_points
  rw [foldl_ite_append_eq_filterMap
    (fun i => OptionStrategy.payAt legs i * OptionStrategy.payAt legs (i + 1) < 0)
    (OptionStrategy.interpAt legs) (List.range 999) []]
  simp

theorem interp_between {s1 s2 f1 f2 : ℝ} (hs : s1 < s2) (hf : f1 * f2 < 0) :
    s1 < s1 - f1 * (s2 - s1) / (f2 - f1) ∧ s1 - f1 * (s2 - s1) / (f2 - f1) < s2 := by
  rcases mul_neg_iff.mp hf with ⟨h1, h2⟩ | ⟨h1, h2⟩
  · have hD : f2 - f1 < 0 := by linarith
    have hD' : f2 - f1 ≠ 0 := ne_of_lt hD
    constructor
    · have key : 0 < -f1 * (s2 - s1) / (f2 - f1) :=
        div_pos_iff.mpr (Or.inr ⟨by nlinarith, hD⟩)
      have heq : s1 - f1 * (s2 - s1) / (f2 - f1) - s1 = -f1 * (s2 - s1) / (f2 - f1) := by
        ring
      linarith
    · have heq : s2 - (s1 - f1 * (s2 - s1) / (f2 - f1)) = (s2 - s1) * f2 / (f2 - f1) := by
        field_simp
        ring
      have key : 0 < (s2 - s1) * f2 / (f2 - f1) :=
        div_pos_iff.mpr (Or.inr ⟨by nlinarith, hD⟩)
      linarith
  · have hD : 0 < f2 - f1 := by linarith
    have hD' : f2 - f1 ≠ 0 := ne_of_gt hD
    constructor
    · have key : 0 < -f1 * (s2 - s1) / (f2 - f1) := div_pos (by nlinarith) hD
      have heq : s1 - f1 * (s2 - s1) / (f2 - f1) - s1 = -f1 * (s2 - s1) / (f2 - f1) := by
        ring
      linarith
    · have heq : s2 - (s1 - f1 * (s2 - s1) / (f2 - f1)) = (s2 - s1) * f2 / (f2 - f1) := by
        field_simp
        ring
      have key : 0 < (s2 - s1) * f2 / (f2 - f1) := div_pos (by nlinarith) hD
      linarith

theorem interp_secant_zero {s1 s2 f1 f2 : ℝ} (hs : s1 ≠ s2) (hf : f1 * f2 < 0) :
    f1 + (s1 - f1 * (s2 - s1) / (f2 - f1) - s1) * (f2 - f1) / (s2 - s1) = 0 := by
  have hff : f2 - f1 ≠ 0 := by
    intro hc
    have h2 : f2 = f1 := by linarith
    rw [h2] at hf
    nlinarith [mul_self_nonneg f1]
  have hss : s2 - s1 ≠ 0 := sub_ne_zero.mpr (Ne.symm hs)
  field_simp
  ring

theorem sampleAt_lt (legs : List OptionLeg)
    (h : OptionStrategy.rangeStart legs < OptionStrategy.rangeEnd legs)
    {i j : ℕ} (hij : i < j) :
    OptionStrategy.sampleAt legs i < OptionStrategy.sampleAt legs j := by
  unfold OptionStrategy.sampleAt
  have hc : (i : ℝ) < (j : ℝ) := Nat.cast_lt.mpr hij
  have hpos : 0 < (OptionStrategy.rangeEnd legs - OptionStrategy.rangeStart legs) / 999 :=
    div_pos (by linarith) (by norm_num)
  rw [mul_div_assoc, mul_div_assoc]
  have := mul_lt_mul_of_pos_right hc hpos
  linarith

theorem sampleAt_le (legs : List OptionLeg)
    (h : OptionStrategy.rangeStart legs < OptionStrategy.rangeEnd legs)
    {i j : ℕ} (hij : i ≤ j) :
    OptionStrategy.sampleAt legs i ≤ OptionStrategy.sampleAt legs j := by
  rcases eq_or_lt_of_le hij with heq | hlt
  · rw [heq]
  · exact le_of_lt (sampleAt_lt legs h hlt)

theorem payoffAt_cons (leg : OptionLeg) (rest : List OptionLeg) (s : ℝ) :
    OptionStrategy.payoffAt (leg :: rest) s = leg.payoff s + OptionStrategy.payoffAt rest s := by
  unfold OptionStrategy.payoffAt
  simp

theorem leg_payoff_affine (leg : OptionLeg) (a b : ℝ)
    (hK : leg.strike ≤ a ∨ b ≤ leg.strike) :
    ∃ c1 c0 : ℝ, ∀ s, a ≤ s → s ≤ b → leg.payoff s = c1 * s + c0 := by
  by_cases hc : leg.option_type = "call"
  · rcases hK with hKa | hKb
    · by_cases hl : leg.position = "long"
      · refine ⟨(leg.quantity : ℝ), (-leg.strike - leg.premium) * (leg.quantity : ℝ), ?_⟩
        intro s h1 h2
        simp only [OptionLeg.payoff]
        rw [if_pos hl, if_pos hc, max_eq_left (by linarith)]
        ring
      · refine ⟨-(leg.quantity : ℝ), (leg.premium + leg.strike) * (leg.quantity : ℝ), ?_⟩
        intro s h1 h2
        simp only [OptionLeg.payoff]
        rw [if_neg hl, if_pos hc, max_eq_left (by linarith)]
        ring
    · by_cases hl : leg.position = "long"
      · refine ⟨0, (0 - leg.premium) * (leg.quantity : ℝ), ?_⟩
        intro s h1 h2
        simp only [OptionLeg.payoff]
        rw [if_pos hl, if_pos hc, max_eq_right (by linarith)]
        ring
      · refine ⟨0, (leg.premium - 0) * (leg.quantity : ℝ), ?_⟩
        intro s h1 h2
        simp only [OptionLeg.payoff]
        rw [if_neg hl, if_pos hc, max_eq_right (by linarith)]
        ring
  · rcases hK with hKa | hKb
    · by_cases hl : leg.position = "long"
      · refine ⟨0, (0 - leg.premium) * (leg.quantity : ℝ), ?_⟩
        intro s h1 h2
        simp only [OptionLeg.payoff]
        rw [if_pos hl, if_neg hc, max_eq_right (by linarith)]
        ring
      · refine ⟨0, (leg.premium - 0) * (leg.quantity : ℝ), ?_⟩
        intro s h1 h2
        simp only [OptionLeg.payoff]
        rw [if_neg hl, if_neg hc, max_eq_right (by linarith)]
        ring
    · by_cases hl : leg.position = "long"
      · refine ⟨-(leg.quantity : ℝ), (leg.strike - leg.premium) * (leg.quantity : ℝ), ?_⟩
        intro s h1 h2
        simp only [OptionLeg.payoff]
        rw [if_pos hl, if_neg hc, max_eq_left (by linarith)]
        ring
      · refine ⟨(leg.quantity : ℝ), (leg.premium - leg.strike) * (leg.quantity : ℝ), ?_⟩
        intro s h1 h2
        simp only [OptionLeg.payoff]
        rw [if_neg hl, if_neg hc, max_eq_left (by linarith)]
        ring

theorem strategy_payoff_affine (legs : List OptionLeg) (a b : ℝ)
    (hK : ∀ leg ∈ legs, leg.strike ≤ a ∨ b ≤ leg.strike) :
    ∃ c1 c0 : ℝ, ∀ s, a ≤ s → s ≤ b → OptionStrategy.payoffAt legs s = c1 * s + c0 := by
  induction legs with
  | nil =>
    refine ⟨0, 0, ?_⟩
    intro s _ _
    simp [OptionStrategy.payoffAt]
  | cons leg rest ih =>
    obtain ⟨c1, c0, hleg⟩ := leg_payoff_affine leg a b (hK leg (List.mem_cons_self leg rest))
    obtain ⟨d1, d0, hrest⟩ := ih (fun l hl => hK l (List.mem_cons_of_mem leg hl))
    refine ⟨c1 + d1, c0 + d0, ?_⟩
    intro s h1 h2
    rw [payoffAt_cons, hleg s h1 h2, hrest s h1 h2]
    ring

theorem affine_interp_zero {c1 c0 s1 s2 : ℝ} (hs : s1 < s2)
    (hf : (c1 * s1 + c0) * (c1 * s2 + c0) < 0) :
    c1 * (s1 - (c1 * s1 + c0) * (s2 - s1) / (c1 * s2 + c0 - (c1 * s1 + c0))) + c0 = 0 := by
  have hc1 : c1 ≠ 0 := by
    intro h
    rw [h] at hf
    simp only [zero_mul, zero_add] at hf
    nlinarith [mul_self_nonneg c0]
  have hss : s2 - s1 ≠ 0 := ne_of_gt (by linarith)
  have hden : c1 * s2 + c0 - (c1 * s1 + c0) = c1 * (s2 - s1) := by ring
  rw [hden]
  field_simp
  ring

theorem break_even_sorted (legs : List OptionLeg)
    (h : OptionStrategy.rangeStart legs < OptionStrategy.rangeEnd legs) :
    (OptionStrategy.break_even_points legs).Pairwise (· < ·) := by
  rw [break_even_eq_filterMap]
  refine List.Pairwise.filterMap _ ?_ (List.pairwise_lt_range 999)
  intro a a' haa' b hb b' hb'
  by_cases ha : OptionStrategy.payAt legs a * OptionStrategy.payAt legs (a + 1) < 0
  · by_cases ha' : OptionStrategy.payAt legs a' * OptionStrategy.payAt legs (a' + 1) < 0
    · rw [if_pos ha] at hb
      rw [if_pos ha'] at hb'
      simp only [Option.mem_def, Option.some_inj] at hb hb'
      subst hb
      subst hb'
      have h1 : OptionStrategy.sampleAt legs a < OptionStrategy.sampleAt legs (a + 1) :=
        sampleAt_lt legs h (lt_add_one a)
      have h1' : OptionStrategy.sampleAt legs a' < OptionStrategy.sampleAt legs (a' + 1) :=
        sampleAt_lt legs h (lt_add_one a')
      have hb1 : OptionStrategy.interpAt legs a < OptionStrategy.sampleAt legs (a + 1) := by
        unfold OptionStrategy.interpAt OptionStrategy.payAt
        exact (interp_between h1 ha).2
      have hb2 : OptionStrategy.sampleAt legs a' < OptionStrategy.interpAt legs a' := by
        unfold OptionStrategy.interpAt OptionStrategy.payAt
        exact (interp_between h1' ha').1
      have hmid : OptionStrategy.sampleAt legs (a + 1) ≤ OptionStrategy.sampleAt legs a' :=
        sampleAt_le legs h (Nat.succ_le_of_lt haa')
      linarith
    · rw [if_neg ha'] at hb'
      simp at hb'
  · rw [if_neg ha] at hb
    simp at hb

/-- C6 (amended): `break_even_points` returns exactly one point for each
consecutive sample pair whose payoffs have a strictly negative product (so
pairs whose payoff touches zero without crossing contribute nothing), each
point obtained by linear interpolation between the bracketing pair; the
returned points are in strictly ascending spot order (whenever the analysis
grid ascends, i.e. rangeStart < rangeEnd); each returned point is the exact
zero of the secant line through the bracketing samples, and it is an exact
zero of the payoff itself whenever no leg strike separates the bracketing
samples — but the unconditional bound |payoff(be)| < 0.01 claimed by the spec
is false (`C6_counterexample`). -/
theorem C6_break_even_points (legs : List OptionLeg)
    (h : OptionStrategy.rangeStart legs < OptionStrategy.rangeEnd legs) :
    OptionStrategy.break_even_points legs =
      (List.range 999).filterMap (fun i =>
        if OptionStrategy.payAt legs i * OptionStrategy.payAt legs (i + 1) < 0 then
          some (OptionStrategy.interpAt legs i)
        else none) ∧
    (OptionStrategy.break_even_points legs).Pairwise (· < ·) ∧
    (∀ i, OptionStrategy.payAt legs i * OptionStrategy.payAt legs (i + 1) < 0 →
      OptionStrategy.payAt legs i +
        (OptionStrategy.interpAt legs i - OptionStrategy.sampleAt legs i) *
          (OptionStrategy.payAt legs (i + 1) - OptionStrategy.payAt legs i) /
          (OptionStrategy.sampleAt legs (i + 1) - OptionStrategy.sampleAt legs i) = 0) ∧
    (∀ i, OptionStrategy.payAt legs i * OptionStrategy.payAt legs (i + 1) < 0 →
      (∀ leg ∈ legs, leg.strike ≤ OptionStrategy.sampleAt legs i ∨
        OptionStrategy.sampleAt legs (i + 1) ≤ leg.strike) →
      OptionStrategy.payoffAt legs (OptionStrategy.interpAt legs i) = 0) := by
  refine ⟨break_even_eq_filterMap legs, break_even_sorted legs h, ?_, ?_⟩
  · intro i hcond
    have hs : OptionStrategy.sampleAt legs i ≠ OptionStrategy.sampleAt legs (i + 1) :=
      ne_of_lt (sampleAt_lt legs h (lt_add_one i))
    unfold OptionStrategy.interpAt
    exact interp_secant_zero hs hcond
  · intro i hcond hK
    have hs12 : OptionStrategy.sampleAt legs i < OptionStrategy.sampleAt legs (i + 1) :=
      sampleAt_lt legs h (lt_add_one i)
    obtain ⟨c1, c0, haff⟩ := strategy_payoff_affine legs
      (OptionStrategy.sampleAt legs i) (OptionStrategy.sampleAt legs (i + 1)) hK
    have hf1 : OptionStrategy.payAt legs i =
        c1 * OptionStrategy.sampleAt legs i + c0 :=
      haff _ le_rfl (le_of_lt hs12)
    have hf2 : OptionStrategy.payAt legs (i + 1) =
        c1 * OptionStrategy.sampleAt legs (i + 1) + c0 :=
      haff _ (le_of_lt hs12) le_rfl
    have hbe1 : OptionStrategy.sampleAt legs i ≤ OptionStrategy.interpAt legs i := by
      unfold OptionStrategy.interpAt OptionStrategy.payAt
      unfold OptionStrategy.payAt at hcond
      exact le_of_lt (interp_between hs12 hcond).1
    have hbe2 : OptionStrategy.interpAt legs i ≤ OptionStrategy.sampleAt legs (i + 1) := by
      unfold OptionStrategy.interpAt OptionStrategy.payAt
      unfold OptionStrategy.payAt at hcond
      exact le_of_lt (interp_between hs12 hcond).2
    rw [haff _ hbe1 hbe2]
    have hfprod : (c1 * OptionStrategy.sampleAt legs i + c0) *
        (c1 * OptionStrategy.sampleAt legs (i + 1) + c0) < 0 := by
      rw [← hf1, ← hf2]
      exact hcond
    have hz := affine_interp_zero hs12 hfprod
    unfold OptionStrategy.interpAt
    rw [hf1, hf2]
    exact hz

theorem wit_sampleAt (i : ℕ) :
    OptionStrategy.sampleAt [⟨"call", 300, "long", 1, 100.5⟩, ⟨"call", 799.5, "long", 1, 0⟩] i
      = 50.25 + i := by
  unfold OptionStrategy.sampleAt OptionStrategy.rangeStart OptionStrategy.rangeEnd
  simp only [List.map_cons, List.map_nil]
  rw [show listMin [(300 : ℝ), 799.5] = min 300 799.5 from rfl,
    show listMax [(300 : ℝ), 799.5] = max 300 799.5 from rfl]
  rw [show min (300 : ℝ) 799.5 = 300 from min_eq_left (by norm_num),
    show max (300 : ℝ) 799.5 = 799.5 from max_eq_right (by norm_num)]
  rw [show max ((300 : ℝ) - 0.5 * (799.5 - 300)) 0.01 = 300 - 0.5 * (799.5 - 300) from
    max_eq_left (by norm_num)]
  rw [show (799.5 : ℝ) + 0.5 * (799.5 - 300) - (300 - 0.5 * (799.5 - 300)) = 999 by norm_num]
  rw [mul_div_assoc]
  norm_num

theorem wit_rangeStart_lt :
    OptionStrategy.rangeStart [⟨"call", 300, "long", 1, 100.5⟩, ⟨"call", 799.5, "long", 1, 0⟩] <
    OptionStrategy.rangeEnd [⟨"call", 300, "long", 1, 100.5⟩, ⟨"call", 799.5, "long", 1, 0⟩] := by
  unfold OptionStrategy.rangeStart OptionStrategy.rangeEnd
  simp only [List.map_cons, List.map_nil]
  rw [show listMin [(300 : ℝ), 799.5] = min 300 799.5 from rfl,
    show listMax [(300 : ℝ), 799.5] = max 300 799.5 from rfl]
  rw [show min (300 : ℝ) 799.5 = 300 from min_eq_left (by norm_num),
    show max (300 : ℝ) 799.5 = 799.5 from max_eq_right (by norm_num)]
  rw [show max ((300 : ℝ) - 0.5 * (799.5 - 300)) 0.01 = 300 - 0.5 * (799.5 - 300) from
    max_eq_left (by norm_num)]
  norm_num

theorem wit_pay350 :
    OptionStrategy.payAt [⟨"call", 300, "long", 1, 100.5⟩, ⟨"call", 799.5, "long", 1, 0⟩] 350
      = -0.25 := by
  unfold OptionStrategy.payAt
  rw [wit_sampleAt]
  norm_num [OptionStrategy.payoffAt, OptionLeg.payoff]

theorem wit_pay351 :
    OptionStrategy.payAt [⟨"call", 300, "long", 1, 100.5⟩, ⟨"call", 799.5, "long", 1, 0⟩] 351
      = 0.75 := by
  unfold OptionStrategy.payAt
  rw [wit_sampleAt]
  norm_num [OptionStrategy.payoffAt, OptionLeg.payoff]

/-- Witness for C6 (amended): a two-leg call spread whose grid step is exactly
one currency unit; the bracket (350, 351) crosses zero away from both strikes,
so the interpolated break-even is an exact payoff zero. -/
theorem C6_break_even_points_witness :
    (OptionStrategy.break_even_points [⟨"call", 300, "long", 1, 100.5⟩,
        ⟨"call", 799.5, "long", 1, 0⟩]).Pairwise (· < ·) ∧
    OptionStrategy.payoffAt [⟨"call", 300, "long", 1, 100.5⟩, ⟨"call", 799.5, "long", 1, 0⟩]
      (OptionStrategy.interpAt [⟨"call", 300, "long", 1, 100.5⟩,
        ⟨"call", 799.5, "long", 1, 0⟩] 350) = 0 := by
  have h := C6_break_even_points
    [⟨"call", 300, "long", 1, 100.5⟩, ⟨"call", 799.5, "long", 1, 0⟩] wit_rangeStart_lt
  refine ⟨h.2.1, h.2.2.2 350 ?_ ?_⟩
  · rw [wit_pay350, show (350 : ℕ) + 1 = 351 from rfl, wit_pay351]
    norm_num
  · intro leg hleg
    rcases List.mem_cons.mp hleg with h1 | h1
    · subst h1
      left
      rw [wit_sampleAt]
      norm_num
    · rcases List.mem_cons.mp h1 with h2 | h2
      · subst h2
        right
        rw [show (350 : ℕ) + 1 = 351 from rfl, wit_sampleAt]
        norm_num
      · simp at h2

theorem cex6_sampleAt (i : ℕ) :
    OptionStrategy.sampleAt [⟨"call", 500, "long", 1, 499.5⟩, ⟨"call", 999.5, "long", 1000, 0⟩]
      i = 250.25 + i := by
  unfold OptionStrategy.sampleAt OptionStrategy.rangeStart OptionStrategy.rangeEnd
  simp only [List.map_cons, List.map_nil]
  rw [show listMin [(500 : ℝ), 999.5] = min 500 999.5 from rfl,
    show listMax [(500 : ℝ), 999.5] = max 500 999.5 from rfl]
  rw [show min (500 : ℝ) 999.5 = 500 from min_eq_left (by norm_num),
    show max (500 : ℝ) 999.5 = 999.5 from max_eq_right (by norm_num)]
  rw [show max ((500 : ℝ) - 0.5 * (999.5 - 500)) 0.01 = 500 - 0.5 * (999.5 - 500) from
    max_eq_left (by norm_num)]
  rw [show (999.5 : ℝ) + 0.5 * (999.5 - 500) - (500 - 0.5 * (999.5 - 500)) = 999 by norm_num]
  rw [mul_div_assoc]
  norm_num

theorem cex6_pay749 :
    OptionStrategy.payAt [⟨"call", 500, "long", 1, 499.5⟩, ⟨"call", 999.5, "long", 1000, 0⟩]
      749 = -0.25 := by
  unfold OptionStrategy.payAt
  rw [cex6_sampleAt]
  norm_num [OptionStrategy.payoffAt, OptionLeg.payoff]

theorem cex6_pay750 :
    OptionStrategy.payAt [⟨"call", 500, "long", 1, 499.5⟩, ⟨"call", 999.5, "long", 1000, 0⟩]
      750 = 750.75 := by
  unfold OptionStrategy.payAt
  rw [cex6_sampleAt]
  norm_num [OptionStrategy.payoffAt, OptionLeg.payoff]

/-- C6 is refuted on the code: for the strategy long one 500-call at premium
499.5 plus long one thousand 999.5-calls at premium 0, the samples at indices
749 and 750 are 999.25 and 1000.25, the payoff crosses zero between them (the
strike 999.5 lies strictly inside the bracket), and the interpolated
break-even 999.25 + 0.25/751 that `break_even_points` returns has
|payoff| = 0.25 * 750/751, far above the claimed 0.01 bound. -/
theorem C6_counterexample :
    ((999.25 + 0.25 / 751 : ℝ) ∈ OptionStrategy.break_even_points
      [⟨"call", 500, "long", 1, 499.5⟩, ⟨"call", 999.5, "long", 1000, 0⟩]) ∧
    1 / 100 ≤ |OptionStrategy.payoffAt
      [⟨"call", 500, "long", 1, 499.5⟩, ⟨"call", 999.5, "long", 1000, 0⟩]
      (999.25 + 0.25 / 751)| := by
  have hcond : OptionStrategy.payAt
      [⟨"call", 500, "long", 1, 499.5⟩, ⟨"call", 999.5, "long", 1000, 0⟩] 749 *
      OptionStrategy.payAt
      [⟨"call", 500, "long", 1, 499.5⟩, ⟨"call", 999.5, "long", 1000, 0⟩] (749 + 1) < 0 := by
    rw [cex6_pay749, show (749 : ℕ) + 1 = 750 from rfl, cex6_pay750]
    norm_num
  have hinterp : OptionStrategy.interpAt
      [⟨"call", 500, "long", 1, 499.5⟩, ⟨"call", 999.5, "long", 1000, 0⟩] 749 =
      999.25 + 0.25 / 751 := by
    unfold OptionStrategy.interpAt
    rw [show (749 : ℕ) + 1 = 750 from rfl]
    unfold OptionStrategy.payAt
    rw [cex6_sampleAt 749, cex6_sampleAt 750]
    have h749 : OptionStrategy.payoffAt
        [⟨"call", 500, "long", 1, 499.5⟩, ⟨"call", 999.5, "long", 1000, 0⟩]
        (250.25 + (749 : ℕ)) = -0.25 := by
      norm_num [OptionStrategy.payoffAt, OptionLeg.payoff]
    have h750 : OptionStrategy.payoffAt
        [⟨"call", 500, "long", 1, 499.5⟩, ⟨"call", 999.5, "long", 1000, 0⟩]
        (250.25 + (750 : ℕ)) = 750.75 := by
      norm_num [OptionStrategy.payoffAt, OptionLeg.payoff]
    rw [h749, h750]
    norm_num
  constructor
  · rw [break_even_eq_filterMap]
    apply List.mem_filterMap.mpr
    refine ⟨749, List.mem_range.mpr (by norm_num), ?_⟩
    rw [if_pos hcond, hinterp]
  · have hval : OptionStrategy.payoffAt
        [⟨"call", 500, "long", 1, 499.5⟩, ⟨"call", 999.5, "long", 1000, 0⟩]
        (999.25 + 0.25 / 751) = -0.25 + 0.25 / 751 := by
      norm_num [OptionStrategy.payoffAt, OptionLeg.payoff]
    rw [hval, abs_of_neg (by norm_num)]
    norm_num
